import Mathlib

/-! Tic-tac-toe rules engine (package `game`).

A shallow embedding of `game/board.go`, `game/player.go` and `game/win.go`,
followed further down by the input validator of `validation/input.go`, and
then by theorems about the move protocol `Game.MakeMove`, the win and draw
predicates and the validation pipeline.

Conventions of the embedding:

* Go's `int`, and the named integer types `Cell`, `Player` and `GameState`
  built on it, are `Int`.  The only arithmetic the engine performs on a value
  it does not control is `MoveCount++`, which is modelled with the 64-bit
  two's complement wrap-around `wrapInt`.
* `[BOARD_SIZE][BOARD_SIZE]Cell` is a record of three rows of three cells.
* An index expression `b[row][col]` on run-time integers panics in Go when an
  index is outside the array.  Functions that index with caller-supplied
  integers therefore return an `Option`, where `none` stands for that panic.
* A Go result `(Game, error)` is a pair `Game × Option GameError`, the error
  component being `none` for `nil`.
-/

namespace game

/-! ## Machine integers -/

/-- The value of a Go `int` expression after an arithmetic step whose exact
result is `n`: reduction into the signed 64-bit range. -/
def wrapInt (n : Int) : Int :=
  (n + 9223372036854775808) % 18446744073709551616 - 9223372036854775808

/-! ## board.go -/

/-- Go `type Cell int`. -/
abbrev Cell := Int

/-- The cell constant `Empty Cell = iota`, the zero value. -/
abbrev Empty : Cell := 0

/-- The cell constant `X`. -/
abbrev X : Cell := 1

/-- The cell constant `O`. -/
abbrev O : Cell := 2

/-- Go `func (c Cell) IsOccupied() bool`. -/
def Cell.IsOccupied (c : Cell) : Bool := c != Empty

/-- Go `const BOARD_SIZE = 3`. -/
abbrev BOARD_SIZE : Nat := 3

/-- One row `[BOARD_SIZE]Cell` of the board. -/
structure BoardRow where
  c0 : Cell
  c1 : Cell
  c2 : Cell
deriving DecidableEq

/-- Go `type Board [BOARD_SIZE][BOARD_SIZE]Cell`. -/
structure Board where
  r0 : BoardRow
  r1 : BoardRow
  r2 : BoardRow
deriving DecidableEq

/-- Element `r[col]` of a row for an index known to be in range. -/
def BoardRow.get (r : BoardRow) (col : Fin BOARD_SIZE) : Cell :=
  match col with
  | 0 => r.c0
  | 1 => r.c1
  | 2 => r.c2

/-- Assignment `r[col] = cell` on a copy of a row. -/
def BoardRow.set (r : BoardRow) (col : Fin BOARD_SIZE) (cell : Cell) : BoardRow :=
  match col with
  | 0 => { r with c0 := cell }
  | 1 => { r with c1 := cell }
  | 2 => { r with c2 := cell }

/-- Element `b[row][col]` for indices known to be in range. -/
def Board.get (b : Board) (row col : Fin BOARD_SIZE) : Cell :=
  match row with
  | 0 => b.r0.get col
  | 1 => b.r1.get col
  | 2 => b.r2.get col

/-- Assignment `b[row][col] = cell` on a copy of the board. -/
def Board.set (b : Board) (row col : Fin BOARD_SIZE) (cell : Cell) : Board :=
  match row with
  | 0 => { b with r0 := b.r0.set col cell }
  | 1 => { b with r1 := b.r1.set col cell }
  | 2 => { b with r2 := b.r2.set col cell }

/-- The run-time bounds check of an array index: `none` is the
index-out-of-range panic. -/
def toIndex (i : Int) : Option (Fin BOARD_SIZE) :=
  if h : 0 ≤ i ∧ i < BOARD_SIZE then some ⟨i.toNat, by omega⟩ else none

/-- Go `func NewBoard() Board`: all cells are the zero value. -/
def NewBoard : Board :=
  ⟨⟨Empty, Empty, Empty⟩, ⟨Empty, Empty, Empty⟩, ⟨Empty, Empty, Empty⟩⟩

/-- Go `func (b Board) GetCell(row, col int) Cell`, i.e. `b[row][col]`. -/
def Board.GetCell (b : Board) (row col : Int) : Option Cell :=
  match toIndex row, toIndex col with
  | some r, some c => some (b.get r c)
  | _, _ => none

/-- Go `func (b Board) SetCell(row, col int, cell Cell) Board`: the receiver is
a copy, so the caller's board is untouched. -/
def Board.SetCell (b : Board) (row col : Int) (cell : Cell) : Option Board :=
  match toIndex row, toIndex col with
  | some r, some c => some (b.set r c cell)
  | _, _ => none

/-- Go `func (b Board) IsCellEmpty(row, col int) bool`. -/
def Board.IsCellEmpty (b : Board) (row col : Int) : Option Bool :=
  match toIndex row, toIndex col with
  | some r, some c => some (b.get r c == Empty)
  | _, _ => none

/-- Go `func (b Board) IsFull() bool`: the nested loops return `false` at the
first empty cell. -/
def Board.IsFull (b : Board) : Bool :=
  (List.finRange BOARD_SIZE).all fun row =>
    (List.finRange BOARD_SIZE).all fun col => !(b.get row col == Empty)

/-- Go `func (b Board) CountOccupied() int`. -/
def Board.CountOccupied (b : Board) : Int :=
  (List.finRange BOARD_SIZE).foldl
    (fun count row =>
      (List.finRange BOARD_SIZE).foldl
        (fun count col => if b.get row col != Empty then count + 1 else count) count)
    0

/-- Go `type GameState int`. -/
abbrev GameState := Int

/-- The state constant `InProgress GameState = iota`. -/
abbrev InProgress : GameState := 0

/-- The state constant `Player1Won`. -/
abbrev Player1Won : GameState := 1

/-- The state constant `Player2Won`. -/
abbrev Player2Won : GameState := 2

/-- The state constant `Draw`. -/
abbrev Draw : GameState := 3

/-! ## player.go -/

/-- Go `type Player Cell`. -/
abbrev Player := Cell

/-- The player constant `Player1 = Player(X)`. -/
abbrev Player1 : Player := X

/-- The player constant `Player2 = Player(O)`. -/
abbrev Player2 : Player := O

/-- Go `func (p Player) GetMark() Cell`: the conversion `Cell(p)`. -/
def Player.GetMark (p : Player) : Cell := p

/-- Go `func (p Player) Other() Player`. -/
def Player.Other (p : Player) : Player :=
  if p = Player1 then Player2
  else if p = Player2 then Player1
  else Player1

/-! ## win.go -/

/-- Go `func checkRows(board Board, player Cell) bool`. -/
def checkRows (board : Board) (player : Cell) : Bool :=
  (List.finRange BOARD_SIZE).any fun row =>
    board.get row 0 == player && board.get row 1 == player && board.get row 2 == player

/-- Go `func checkColumns(board Board, player Cell) bool`. -/
def checkColumns (board : Board) (player : Cell) : Bool :=
  (List.finRange BOARD_SIZE).any fun col =>
    board.get 0 col == player && board.get 1 col == player && board.get 2 col == player

/-- Go `func checkDiagonals(board Board, player Cell) bool`. -/
def checkDiagonals (board : Board) (player : Cell) : Bool :=
  let mainDiag := board.get 0 0 == player && board.get 1 1 == player && board.get 2 2 == player
  let antiDiag := board.get 0 2 == player && board.get 1 1 == player && board.get 2 0 == player
  mainDiag || antiDiag

/-- Go `func CheckWin(board Board, player Cell) bool`. -/
def CheckWin (board : Board) (player : Cell) : Bool :=
  checkRows board player || checkColumns board player || checkDiagonals board player

/-- Go `func CheckDraw(board Board) bool`. -/
def CheckDraw (board : Board) : Bool :=
  if !board.IsFull then false
  else if CheckWin board X || CheckWin board O then false
  else true

/-! ## board.go: the game and its transition -/

/-- Go `type GameError struct { Message string }`. -/
structure GameError where
  Message : String
deriving DecidableEq

/-- The sentinel `ErrInvalidRange`. -/
def ErrInvalidRange : GameError :=
  ⟨"Invalid position. Row and column must be between 0 and 2"⟩

/-- The sentinel `ErrCellOccupied`. -/
def ErrCellOccupied : GameError :=
  ⟨"Position already occupied. Please choose an empty cell"⟩

/-- Go `type Game struct`. -/
structure Game where
  Board : Board
  CurrentPlayer : Player
  State : GameState
  MoveCount : Int
deriving DecidableEq

/-- Go `func NewGame() Game`. -/
def NewGame : Game :=
  { Board := NewBoard, CurrentPlayer := Player1, State := InProgress, MoveCount := 0 }

/-- Go `func (g Game) MakeMove(row, col int) (Game, error)`.  The outer
`Option` is `none` when an index expression panics. -/
def Game.MakeMove (g : Game) (row col : Int) : Option (Game × Option GameError) :=
  if row < 0 ∨ row ≥ BOARD_SIZE ∨ col < 0 ∨ col ≥ BOARD_SIZE then
    some (g, some ErrInvalidRange)
  else
    match g.Board.IsCellEmpty row col with
    | none => none
    | some false => some (g, some ErrCellOccupied)
    | some true =>
      match g.Board.SetCell row col g.CurrentPlayer.GetMark with
      | none => none
      | some board =>
        let newGame : Game := { g with Board := board, MoveCount := wrapInt (g.MoveCount + 1) }
        if CheckWin newGame.Board g.CurrentPlayer.GetMark then
          if g.CurrentPlayer = Player1 then
            some ({ newGame with State := Player1Won }, none)
          else
            some ({ newGame with State := Player2Won }, none)
        else if CheckDraw newGame.Board then
          some ({ newGame with State := Draw }, none)
        else
          some ({ newGame with CurrentPlayer := g.CurrentPlayer.Other }, none)

/-! ## Sequences of moves -/

/-- Apply the moves in order with `MakeMove`, replacing the game by the
returned one after each success; `none` as soon as a call returns an error. -/
def playMoves (g : Game) : List (Int × Int) → Option Game
  | [] => some g
  | (row, col) :: rest =>
    match g.MakeMove row col with
    | some (g', none) => playMoves g' rest
    | _ => none

/-- A game obtained from `NewGame()` by a sequence of successful `MakeMove`
calls. -/
def Reachable (g : Game) : Prop :=
  ∃ moves : List (Int × Int), playMoves NewGame moves = some g

/-! ## Auxiliary definitions -/

/-- Contribution of one cell to `CountOccupied`. -/
def occupiedCount (c : Cell) : Int := if c ≠ Empty then 1 else 0

/-- The eight winning lines, in the order `CheckWin` examines them: rows,
columns, main diagonal, anti-diagonal. -/
def winningLines : List (List (Fin BOARD_SIZE × Fin BOARD_SIZE)) :=
  [[(0, 0), (0, 1), (0, 2)], [(1, 0), (1, 1), (1, 2)], [(2, 0), (2, 1), (2, 2)],
   [(0, 0), (1, 0), (2, 0)], [(0, 1), (1, 1), (2, 1)], [(0, 2), (1, 2), (2, 2)],
   [(0, 0), (1, 1), (2, 2)], [(0, 2), (1, 1), (2, 0)]]

/-- Facts that hold of every game obtained from `NewGame()` by successful
moves: the counter agrees with the board, the turn belongs to one of the two
players, and the state tag agrees with the lines on the board. -/
structure Consistent (g : Game) : Prop where
  count : g.MoveCount = g.Board.CountOccupied
  player : g.CurrentPlayer = Player1 ∨ g.CurrentPlayer = Player2
  state : g.State = InProgress ∨ g.State = Player1Won ∨ g.State = Player2Won ∨ g.State = Draw
  inProgress : g.State = InProgress → CheckWin g.Board X = false ∧ CheckWin g.Board O = false
  player1Won : g.State = Player1Won →
    CheckWin g.Board X = true ∧ CheckWin g.Board O = false ∧ g.CurrentPlayer = Player1
  player2Won : g.State = Player2Won →
    CheckWin g.Board O = true ∧ CheckWin g.Board X = false ∧ g.CurrentPlayer = Player2
  draw : g.State = Draw →
    g.Board.IsFull = true ∧ CheckWin g.Board X = false ∧ CheckWin g.Board O = false

/-- The nine cells of the board in row-major order. -/
def Board.cells (b : Board) : List Cell :=
  [b.r0.c0, b.r0.c1, b.r0.c2, b.r1.c0, b.r1.c1, b.r1.c2, b.r2.c0, b.r2.c1, b.r2.c2]

/-- Number of cells of the board that hold the mark `m`. -/
def Board.countOf (b : Board) (m : Cell) : Int :=
  ((b.cells.count m : Nat) : Int)

/-- Apply the moves in order the way the loop of `main.go` does: `MakeMove` is
called only on a game whose `State` is `InProgress`, and the game is replaced
by the returned one after each success. -/
def playInProgress (g : Game) : List (Int × Int) → Option Game
  | [] => some g
  | (row, col) :: rest =>
    if g.State = InProgress then
      match g.MakeMove row col with
      | some (g', none) => playInProgress g' rest
      | _ => none
    else none

/-- A game obtained from `NewGame()` by successful `MakeMove` calls, each made
on a game whose `State` is `InProgress`. -/
def ReachableInPlay (g : Game) : Prop :=
  ∃ moves : List (Int × Int), playInProgress NewGame moves = some g

/-- Whose turn it is in an unfinished game, read off the marks on the board. -/
def TurnParity (g : Game) : Prop :=
  g.State = InProgress →
    (g.CurrentPlayer = Player1 ∧ g.Board.countOf X = g.Board.countOf O) ∨
    (g.CurrentPlayer = Player2 ∧ g.Board.countOf X = g.Board.countOf O + 1)

/-- An unfinished game still has an empty cell. -/
def HasRoom (g : Game) : Prop :=
  g.State = InProgress → g.Board.IsFull = false

/-- Number of cells `c` of the board for which `c.IsOccupied()` is true, counted
cell by cell without the loops of `CountOccupied`. -/
def Board.occupiedCells (b : Board) : Nat :=
  b.cells.countP Cell.IsOccupied

end game

/-! ## Package `validation` (`validation/input.go`)

Conventions of the embedding:

* A Go `string` is a Lean `String`, a sequence of runes.  The library
  functions below look at a byte that is not part of a valid UTF-8 encoding
  exactly as they look at a rune that is neither a space, a sign nor a digit,
  so the kinds of error do not depend on this choice.
* A Go `error` is a `GoError`: a value made by `errors.New`, or one made by
  `fmt.Errorf` with the verb `%w`, which keeps the wrapped error.  The text of a
  wrapped error is not rendered; its format string and operand are kept
  instead.  `GoError.Is` is `errors.Is`.
* `int` is the 64-bit `int`, as in package `game`.
-/

namespace validation

/-! ### Go standard library -/

/-- An operand of `fmt.Errorf` other than the wrapped error. -/
inductive Operand where
  | str (s : String)
  | int (n : Int)
deriving DecidableEq

/-- A Go `error` value: `new text` is `errors.New(text)`, and
`errorf format wrapped arg` is `fmt.Errorf(format, wrapped, arg)` where `format`
begins with the verb `%w`. -/
inductive GoError where
  | new (text : String)
  | errorf (format : String) (wrapped : GoError) (arg : Operand)
deriving DecidableEq

/-- Go `errors.Is(err, target)`: `err` or an error in its chain of wrapped
errors equals `target`. -/
def GoError.Is : GoError → GoError → Bool
  | GoError.new text, target => decide (GoError.new text = target)
  | GoError.errorf format wrapped arg, target =>
    decide (GoError.errorf format wrapped arg = target) || GoError.Is wrapped target

/-- Go `unicode.IsSpace`: the Latin-1 spaces and the other runes with the
property `White_Space`. -/
def isSpace (c : Char) : Bool :=
  c.toNat = 0x09 || c.toNat = 0x0A || c.toNat = 0x0B || c.toNat = 0x0C || c.toNat = 0x0D ||
  c.toNat = 0x20 || c.toNat = 0x85 || c.toNat = 0xA0 || c.toNat = 0x1680 ||
  (0x2000 ≤ c.toNat && c.toNat ≤ 0x200A) || c.toNat = 0x2028 || c.toNat = 0x2029 ||
  c.toNat = 0x202F || c.toNat = 0x205F || c.toNat = 0x3000

/-- The scan of `strings.FieldsFunc`: `cur` holds, in reverse, the runes of the
field that is open, and a field is closed at each space that follows it and at
the end of the string. -/
def fieldsFrom (cur : List Char) : List Char → List (List Char)
  | [] => if cur.isEmpty then [] else [cur.reverse]
  | c :: cs =>
    if isSpace c then
      if cur.isEmpty then fieldsFrom [] cs else cur.reverse :: fieldsFrom [] cs
    else fieldsFrom (c :: cur) cs

/-- Go `strings.Fields`: the maximal runs of runes that are not spaces. -/
def Fields (s : String) : List String :=
  (fieldsFrom [] s.data).map String.mk

/-- Go `strings.TrimSpace`: the string without its leading and trailing
spaces. -/
def TrimSpace (s : String) : String :=
  String.mk ((s.data.dropWhile isSpace).reverse.dropWhile isSpace).reverse

/-- The digit loop of `strconv.ParseUint` for base 10 and 64 bits, started
with the value `n`: `none` when a byte is not a decimal digit or the value
leaves the range of `uint64`. -/
def parseUintLoop (n : Nat) : List Char → Option Nat
  | [] => some n
  | c :: cs =>
    if c.isDigit then
      if n ≥ 1844674407370955162 then none
      else if n * 10 + (c.toNat - 48) > 18446744073709551615 then none
      else parseUintLoop (n * 10 + (c.toNat - 48)) cs
    else none

/-- Go `strconv.ParseUint(s, 10, 64)`, `none` standing for any error. -/
def ParseUint (s : List Char) : Option Nat :=
  if s.isEmpty then none else parseUintLoop 0 s

/-- The range check that ends `strconv.ParseInt` for 64 bits: the magnitude
`un` read by `ParseUint` must fit an `int` with the sign read before it. -/
def signedResult (neg : Bool) (un : Nat) : Option Int :=
  if !neg && un ≥ 9223372036854775808 then none
  else if neg && un > 9223372036854775808 then none
  else some (if neg then -(un : Int) else (un : Int))

/-- Go `strconv.ParseInt(s, 10, 0)`: an optional sign, then `ParseUint`, then
the check against the range of `int`; `none` stands for any error. -/
def ParseInt (s : List Char) : Option Int :=
  match s with
  | [] => none
  | c :: cs =>
    let neg : Bool := c = '-'
    let digits : List Char := if c = '+' ∨ c = '-' then cs else c :: cs
    (ParseUint digits).bind (signedResult neg)

/-- Go `strconv.Atoi`, which is `strconv.ParseInt(s, 10, 0)` converted to
`int`.  The result `none` stands for any non-nil error, syntax or range:
`ValidateNumeric` only tests the error against `nil`.  The fast path of `Atoi`
for short strings computes the same result. -/
def Atoi (s : String) : Option Int :=
  ParseInt s.data

/-! ### input.go -/

/-- The sentinel `ErrInvalidRange`. -/
def ErrInvalidRange : GoError :=
  GoError.new "Invalid position. Row and column must be between 0 and 2"

/-- The sentinel `ErrInvalidFormat`. -/
def ErrInvalidFormat : GoError :=
  GoError.new "Invalid input format. Please enter numeric values only"

/-- The sentinel `ErrIncompleteInput`. -/
def ErrIncompleteInput : GoError :=
  GoError.new "Incomplete input. Please enter two numbers separated by space"

/-- Go `const MinCoordinate = 0`. -/
abbrev MinCoordinate : Int := 0

/-- Go `const MaxCoordinate = 2`. -/
abbrev MaxCoordinate : Int := 2

/-- Go `func ValidateRange(row, col int) error`. -/
def ValidateRange (row col : Int) : Option GoError :=
  if row < MinCoordinate ∨ row > MaxCoordinate then some ErrInvalidRange
  else if col < MinCoordinate ∨ col > MaxCoordinate then some ErrInvalidRange
  else none

/-- Go `func ValidateNumeric(input string) (int, error)`. -/
def ValidateNumeric (input : String) : Int × Option GoError :=
  let input := TrimSpace input
  if input = "" then (0, some ErrInvalidFormat)
  else
    match Atoi input with
    | none =>
      (0, some (GoError.errorf "%w: %q is not a valid number" ErrInvalidFormat
        (Operand.str input)))
    | some num => (num, none)

/-- Go `func ValidateInputFormat(input string) (int, int, error)`. -/
def ValidateInputFormat (input : String) : Int × Int × Option GoError :=
  match Fields input with
  | [] => (0, 0, some ErrIncompleteInput)
  | [_] => (0, 0, some ErrIncompleteInput)
  | part0 :: part1 :: part2 :: rest =>
    (0, 0, some (GoError.errorf "%w: expected 2 numbers, got %d" ErrInvalidFormat
      (Operand.int ((part0 :: part1 :: part2 :: rest).length : Nat))))
  | [part0, part1] =>
    match ValidateNumeric part0 with
    | (_, some err) => (0, 0, some err)
    | (row, none) =>
      match ValidateNumeric part1 with
      | (_, some err) => (0, 0, some err)
      | (col, none) => (row, col, none)

/-- Go `func ParseAndValidateInput(input string) (int, int, error)`. -/
def ParseAndValidateInput (input : String) : Int × Int × Option GoError :=
  match ValidateInputFormat input with
  | (_, _, some err) => (0, 0, some err)
  | (row, col, none) =>
    match ValidateRange row col with
    | some err => (0, 0, some err)
    | none => (row, col, none)

/-! ### Notions used by the statements about the validator -/

/-- A signed decimal integer: an optional sign followed by one or more
decimal digits. -/
def isSignedDecimal (t : String) : Bool :=
  match t.data with
  | [] => false
  | c :: cs =>
    if c = '+' ∨ c = '-' then !cs.isEmpty && cs.all Char.isDigit
    else (c :: cs).all Char.isDigit

/-- The number written by a string of decimal digits, of any length. -/
def digitsValue (digits : List Char) : Nat :=
  digits.foldl (fun n c => n * 10 + (c.toNat - 48)) 0

/-- The integer written by a signed decimal integer, of any magnitude. -/
def signedValue (t : String) : Int :=
  match t.data with
  | [] => 0
  | c :: cs =>
    if c = '-' then -(digitsValue cs : Int)
    else if c = '+' then (digitsValue cs : Int)
    else (digitsValue (c :: cs) : Int)

end validation

namespace game

/-! ## Index and board lemmas -/

theorem finRange_boardSize : List.finRange BOARD_SIZE = [0, 1, 2] := rfl

theorem toIndex_eq_some {i : Int} {k : Fin BOARD_SIZE} (h : toIndex i = some k) :
    i = (k.val : Int) := by
  unfold toIndex at h
  split at h
  · rename_i hi
    simp only [Option.some.injEq] at h
    subst h
    simp only
    omega
  · simp at h

theorem toIndex_natCast (k : Fin BOARD_SIZE) : toIndex (k.val : Int) = some k := by
  fin_cases k <;> rfl

theorem toIndex_inRange {i : Int} (h0 : 0 ≤ i) (h2 : i ≤ 2) :
    ∃ k : Fin BOARD_SIZE, toIndex i = some k := by
  obtain rfl | rfl | rfl : i = 0 ∨ i = 1 ∨ i = 2 := by omega
  · exact ⟨0, rfl⟩
  · exact ⟨1, rfl⟩
  · exact ⟨2, rfl⟩

theorem toIndex_outOfRange {i : Int} (h : i < 0 ∨ 2 < i) : toIndex i = none := by
  unfold toIndex
  rw [dif_neg]
  simp only [BOARD_SIZE, Nat.cast_ofNat]
  omega

theorem get_set (b : Board) (r c r' c' : Fin BOARD_SIZE) (v : Cell) :
    (b.set r c v).get r' c' = if r' = r ∧ c' = c then v else b.get r' c' := by
  fin_cases r <;> fin_cases c <;> fin_cases r' <;> fin_cases c' <;> rfl

/-! ## Unfolding `MakeMove` -/

theorem MakeMove_outOfRange (g : Game) {row col : Int}
    (h : row < 0 ∨ 2 < row ∨ col < 0 ∨ 2 < col) :
    g.MakeMove row col = some (g, some ErrInvalidRange) := by
  unfold Game.MakeMove
  rw [if_pos]
  simp only [BOARD_SIZE, Nat.cast_ofNat, ge_iff_le]
  omega

theorem MakeMove_inRange (g : Game) {row col : Int} {r c : Fin BOARD_SIZE}
    (hr : toIndex row = some r) (hc : toIndex col = some c) :
    g.MakeMove row col =
      if g.Board.get r c = Empty then
        if CheckWin (g.Board.set r c g.CurrentPlayer.GetMark) g.CurrentPlayer.GetMark = true then
          if g.CurrentPlayer = Player1 then
            some (⟨g.Board.set r c g.CurrentPlayer.GetMark, g.CurrentPlayer, Player1Won,
              wrapInt (g.MoveCount + 1)⟩, none)
          else
            some (⟨g.Board.set r c g.CurrentPlayer.GetMark, g.CurrentPlayer, Player2Won,
              wrapInt (g.MoveCount + 1)⟩, none)
        else if CheckDraw (g.Board.set r c g.CurrentPlayer.GetMark) = true then
          some (⟨g.Board.set r c g.CurrentPlayer.GetMark, g.CurrentPlayer, Draw,
            wrapInt (g.MoveCount + 1)⟩, none)
        else
          some (⟨g.Board.set r c g.CurrentPlayer.GetMark, g.CurrentPlayer.Other, g.State,
            wrapInt (g.MoveCount + 1)⟩, none)
      else some (g, some ErrCellOccupied) := by
  have h1 := toIndex_eq_some hr
  have h2 := toIndex_eq_some hc
  have hr2 := r.isLt
  have hc2 := c.isLt
  have hguard : ¬ (row < 0 ∨ row ≥ BOARD_SIZE ∨ col < 0 ∨ col ≥ BOARD_SIZE) := by
    simp only [BOARD_SIZE, Nat.cast_ofNat, ge_iff_le] at hr2 hc2 ⊢
    omega
  unfold Game.MakeMove
  rw [if_neg hguard]
  simp only [Board.IsCellEmpty, Board.SetCell, hr, hc]
  by_cases hcell : g.Board.get r c = Empty
  · simp only [hcell, beq_self_eq_true, if_true]
  · have : (g.Board.get r c == Empty) = false := by simpa using hcell
    simp only [this, hcell, if_false]

/-- Every call of `MakeMove` returns a game and an error value: no index
expression panics. -/
theorem MakeMove_total (g : Game) (row col : Int) :
    ∃ res : Game × Option GameError, g.MakeMove row col = some res := by
  by_cases h : row < 0 ∨ 2 < row ∨ col < 0 ∨ 2 < col
  · exact ⟨_, MakeMove_outOfRange g h⟩
  · obtain ⟨r, hr⟩ := toIndex_inRange (i := row) (by omega) (by omega)
    obtain ⟨c, hc⟩ := toIndex_inRange (i := col) (by omega) (by omega)
    rw [MakeMove_inRange g hr hc]
    split_ifs <;> exact ⟨_, rfl⟩

/-- A successful call was made on an empty in-range cell, and the four fields
of the returned game are determined as in the body of `MakeMove`. -/
theorem MakeMove_success {g g' : Game} {row col : Int}
    (h : g.MakeMove row col = some (g', none)) :
    ∃ r c : Fin BOARD_SIZE, toIndex row = some r ∧ toIndex col = some c ∧
      g.Board.get r c = Empty ∧
      g'.Board = g.Board.set r c g.CurrentPlayer.GetMark ∧
      g'.MoveCount = wrapInt (g.MoveCount + 1) ∧
      ((CheckWin g'.Board g.CurrentPlayer.GetMark = true ∧ g.CurrentPlayer = Player1 ∧
          g'.State = Player1Won ∧ g'.CurrentPlayer = g.CurrentPlayer) ∨
       (CheckWin g'.Board g.CurrentPlayer.GetMark = true ∧ g.CurrentPlayer ≠ Player1 ∧
          g'.State = Player2Won ∧ g'.CurrentPlayer = g.CurrentPlayer) ∨
       (CheckWin g'.Board g.CurrentPlayer.GetMark = false ∧ CheckDraw g'.Board = true ∧
          g'.State = Draw ∧ g'.CurrentPlayer = g.CurrentPlayer) ∨
       (CheckWin g'.Board g.CurrentPlayer.GetMark = false ∧ CheckDraw g'.Board = false ∧
          g'.State = g.State ∧ g'.CurrentPlayer = g.CurrentPlayer.Other)) := by
  by_cases hrange : row < 0 ∨ 2 < row ∨ col < 0 ∨ 2 < col
  · rw [MakeMove_outOfRange g hrange] at h
    simp at h
  · obtain ⟨r, hr⟩ := toIndex_inRange (i := row) (by omega) (by omega)
    obtain ⟨c, hc⟩ := toIndex_inRange (i := col) (by omega) (by omega)
    refine ⟨r, c, hr, hc, ?_⟩
    rw [MakeMove_inRange g hr hc] at h
    split_ifs at h with hcell hwin hp1 hdraw
    · simp only [Option.some.injEq, Prod.mk.injEq, and_true] at h
      subst h
      exact ⟨hcell, rfl, rfl, Or.inl ⟨hwin, hp1, rfl, rfl⟩⟩
    · simp only [Option.some.injEq, Prod.mk.injEq, and_true] at h
      subst h
      exact ⟨hcell, rfl, rfl, Or.inr (Or.inl ⟨hwin, hp1, rfl, rfl⟩)⟩
    · simp only [Option.some.injEq, Prod.mk.injEq, and_true] at h
      subst h
      exact ⟨hcell, rfl, rfl, Or.inr (Or.inr (Or.inl ⟨by simpa using hwin, hdraw, rfl, rfl⟩))⟩
    · simp only [Option.some.injEq, Prod.mk.injEq, and_true] at h
      subst h
      exact ⟨hcell, rfl, rfl,
        Or.inr (Or.inr (Or.inr ⟨by simpa using hwin, by simpa using hdraw, rfl, rfl⟩))⟩
    · simp at h

theorem MakeMove_error_eq {g g' : Game} {row col : Int} {e : GameError}
    (h : g.MakeMove row col = some (g', some e)) : g' = g := by
  by_cases hrange : row < 0 ∨ 2 < row ∨ col < 0 ∨ 2 < col
  · rw [MakeMove_outOfRange g hrange] at h
    simp only [Option.some.injEq, Prod.mk.injEq] at h
    exact h.1.symm
  · obtain ⟨r, hr⟩ := toIndex_inRange (i := row) (by omega) (by omega)
    obtain ⟨c, hc⟩ := toIndex_inRange (i := col) (by omega) (by omega)
    rw [MakeMove_inRange g hr hc] at h
    split_ifs at h <;> simp only [Option.some.injEq, Prod.mk.injEq] at h
    all_goals first | exact h.1.symm | exact absurd h.2 (by simp)

/-! ## Counting, fullness and lines -/

theorem occupiedCount_step (n : Int) (c : Cell) :
    (if (c != Empty) = true then n + 1 else n) = n + occupiedCount c := by
  unfold occupiedCount
  by_cases h : c = Empty <;> simp [h]

theorem CountOccupied_eq (b : Board) :
    b.CountOccupied =
      occupiedCount b.r0.c0 + occupiedCount b.r0.c1 + occupiedCount b.r0.c2 +
      occupiedCount b.r1.c0 + occupiedCount b.r1.c1 + occupiedCount b.r1.c2 +
      occupiedCount b.r2.c0 + occupiedCount b.r2.c1 + occupiedCount b.r2.c2 := by
  simp only [Board.CountOccupied, finRange_boardSize, List.foldl_cons, List.foldl_nil,
    occupiedCount_step, Board.get, BoardRow.get]
  omega

theorem IsFull_iff (b : Board) :
    b.IsFull = true ↔
      (b.r0.c0 ≠ Empty ∧ b.r0.c1 ≠ Empty ∧ b.r0.c2 ≠ Empty) ∧
      (b.r1.c0 ≠ Empty ∧ b.r1.c1 ≠ Empty ∧ b.r1.c2 ≠ Empty) ∧
      (b.r2.c0 ≠ Empty ∧ b.r2.c1 ≠ Empty ∧ b.r2.c2 ≠ Empty) := by
  simp [Board.IsFull, finRange_boardSize, Board.get, BoardRow.get]

theorem CheckWin_iff (b : Board) (p : Cell) :
    CheckWin b p = true ↔
      ((b.r0.c0 = p ∧ b.r0.c1 = p ∧ b.r0.c2 = p) ∨
       (b.r1.c0 = p ∧ b.r1.c1 = p ∧ b.r1.c2 = p) ∨
       (b.r2.c0 = p ∧ b.r2.c1 = p ∧ b.r2.c2 = p)) ∨
      ((b.r0.c0 = p ∧ b.r1.c0 = p ∧ b.r2.c0 = p) ∨
       (b.r0.c1 = p ∧ b.r1.c1 = p ∧ b.r2.c1 = p) ∨
       (b.r0.c2 = p ∧ b.r1.c2 = p ∧ b.r2.c2 = p)) ∨
      ((b.r0.c0 = p ∧ b.r1.c1 = p ∧ b.r2.c2 = p) ∨
       (b.r0.c2 = p ∧ b.r1.c1 = p ∧ b.r2.c0 = p)) := by
  simp [CheckWin, checkRows, checkColumns, checkDiagonals, finRange_boardSize, Board.get,
    BoardRow.get, or_assoc, and_assoc]

theorem CountOccupied_set (b : Board) (r c : Fin BOARD_SIZE) (m : Cell)
    (hcell : b.get r c = Empty) (hm : m ≠ Empty) :
    (b.set r c m).CountOccupied = b.CountOccupied + 1 := by
  obtain ⟨⟨a0, a1, a2⟩, ⟨b0, b1, b2⟩, ⟨c0, c1, c2⟩⟩ := b
  rw [CountOccupied_eq, CountOccupied_eq]
  fin_cases r <;> fin_cases c <;>
    simp only [Board.get, BoardRow.get, Board.set, BoardRow.set] at hcell ⊢ <;>
    subst hcell <;> simp [occupiedCount, hm] <;> omega

theorem CountOccupied_bounds (b : Board) : 0 ≤ b.CountOccupied ∧ b.CountOccupied ≤ 9 := by
  rw [CountOccupied_eq]
  have h : ∀ c : Cell, 0 ≤ occupiedCount c ∧ occupiedCount c ≤ 1 := by
    intro c
    unfold occupiedCount
    split <;> omega
  have := h b.r0.c0
  have := h b.r0.c1
  have := h b.r0.c2
  have := h b.r1.c0
  have := h b.r1.c1
  have := h b.r1.c2
  have := h b.r2.c0
  have := h b.r2.c1
  have := h b.r2.c2
  omega

theorem occupiedCount_eq_one (c : Cell) : occupiedCount c = 1 ↔ c ≠ Empty := by
  unfold occupiedCount
  by_cases hc : c = Empty <;> simp [hc]

theorem occupiedCount_bounds (c : Cell) : 0 ≤ occupiedCount c ∧ occupiedCount c ≤ 1 := by
  unfold occupiedCount
  split <;> omega

theorem IsFull_iff_count (b : Board) : b.IsFull = true ↔ b.CountOccupied = 9 := by
  rw [CountOccupied_eq, IsFull_iff]
  simp only [← occupiedCount_eq_one]
  have := occupiedCount_bounds b.r0.c0
  have := occupiedCount_bounds b.r0.c1
  have := occupiedCount_bounds b.r0.c2
  have := occupiedCount_bounds b.r1.c0
  have := occupiedCount_bounds b.r1.c1
  have := occupiedCount_bounds b.r1.c2
  have := occupiedCount_bounds b.r2.c0
  have := occupiedCount_bounds b.r2.c1
  have := occupiedCount_bounds b.r2.c2
  constructor
  · intro hfull
    omega
  · intro hcount
    refine ⟨⟨?_, ?_, ?_⟩, ⟨?_, ?_, ?_⟩, ⟨?_, ?_, ?_⟩⟩ <;> omega

theorem CountOccupied_eq_card (b : Board) :
    b.CountOccupied =
      ((Finset.univ.filter fun q : Fin BOARD_SIZE × Fin BOARD_SIZE =>
        b.get q.1 q.2 ≠ Empty).card : Int) := by
  rw [CountOccupied_eq, Finset.card_filter]
  simp only [Fintype.sum_prod_type, Fin.sum_univ_three, Board.get, BoardRow.get, occupiedCount]
  push_cast
  omega

theorem IsFull_get (b : Board) (r c : Fin BOARD_SIZE) (hfull : b.IsFull = true) :
    b.get r c ≠ Empty := by
  rw [IsFull_iff] at hfull
  obtain ⟨⟨h00, h01, h02⟩, ⟨h10, h11, h12⟩, ⟨h20, h21, h22⟩⟩ := hfull
  fin_cases r <;> fin_cases c <;> simp only [Board.get, BoardRow.get] <;> assumption

theorem CheckWin_iff_lines (b : Board) (p : Cell) :
    CheckWin b p = true ↔ ∃ l ∈ winningLines, ∀ q ∈ l, b.get q.1 q.2 = p := by
  rw [CheckWin_iff]
  simp only [winningLines, List.mem_cons, List.mem_singleton, List.not_mem_nil, or_false,
    exists_eq_or_imp, forall_eq_or_imp, exists_eq_left, forall_eq, Board.get, BoardRow.get,
    or_assoc]

theorem CheckWin_set_of_win (b : Board) (r c : Fin BOARD_SIZE) (m p : Cell)
    (hwin : CheckWin b p = true) (hcell : b.get r c = Empty) (hp : p ≠ Empty) :
    CheckWin (b.set r c m) p = true := by
  rw [CheckWin_iff_lines] at hwin ⊢
  obtain ⟨l, hl, hall⟩ := hwin
  refine ⟨l, hl, fun q hq => ?_⟩
  rw [get_set]
  split_ifs with heq
  · exfalso
    have := hall q hq
    rw [heq.1, heq.2, hcell] at this
    exact hp this.symm
  · exact hall q hq

theorem CheckWin_of_set_other (b : Board) (r c : Fin BOARD_SIZE) (m p : Cell)
    (hwin : CheckWin (b.set r c m) p = true) (hm : m ≠ p) :
    CheckWin b p = true := by
  rw [CheckWin_iff_lines] at hwin ⊢
  obtain ⟨l, hl, hall⟩ := hwin
  refine ⟨l, hl, fun q hq => ?_⟩
  have := hall q hq
  rw [get_set] at this
  split_ifs at this with heq
  · exact absurd this hm
  · exact this

/-! ## Games reachable from `NewGame()` -/

theorem Consistent_NewGame : Consistent NewGame := by
  refine ⟨by decide, by decide, by decide, ?_, ?_, ?_, ?_⟩ <;> decide

theorem CheckDraw_iff (b : Board) :
    CheckDraw b = true ↔ b.IsFull = true ∧ CheckWin b X = false ∧ CheckWin b O = false := by
  unfold CheckDraw
  cases b.IsFull <;> cases CheckWin b X <;> cases CheckWin b O <;> simp

/-- In a consistent game with an empty cell, the player who is not to move has
no line. -/
theorem Consistent.opponent_no_win {g : Game} (hg : Consistent g) {r c : Fin BOARD_SIZE}
    (hcell : g.Board.get r c = Empty) :
    (g.CurrentPlayer = Player1 → CheckWin g.Board O = false) ∧
      (g.CurrentPlayer = Player2 → CheckWin g.Board X = false) := by
  rcases hg.state with hs | hs | hs | hs
  · exact ⟨fun _ => (hg.inProgress hs).2, fun _ => (hg.inProgress hs).1⟩
  · obtain ⟨-, hO, hp⟩ := hg.player1Won hs
    exact ⟨fun _ => hO, fun h2 => by rw [hp] at h2; exact absurd h2 (by decide)⟩
  · obtain ⟨-, hX, hp⟩ := hg.player2Won hs
    exact ⟨fun h1 => by rw [hp] at h1; exact absurd h1 (by decide), fun _ => hX⟩
  · exact absurd hcell (IsFull_get _ r c (hg.draw hs).1)

/-- In a consistent terminal game with an empty cell, the player to move is
the winner, so any further mark keeps the winning line. -/
theorem Consistent.winner_keeps_line {g : Game} (hg : Consistent g)
    (hterm : g.State ≠ InProgress) {r c : Fin BOARD_SIZE} (hcell : g.Board.get r c = Empty)
    (m : Cell) :
    CheckWin (g.Board.set r c m) g.CurrentPlayer.GetMark = true ∧
      ((g.State = Player1Won ∧ g.CurrentPlayer = Player1) ∨
        (g.State = Player2Won ∧ g.CurrentPlayer = Player2)) := by
  rcases hg.state with hs | hs | hs | hs
  · exact absurd hs hterm
  · obtain ⟨hX, -, hp⟩ := hg.player1Won hs
    refine ⟨?_, Or.inl ⟨hs, hp⟩⟩
    rw [hp]
    exact CheckWin_set_of_win _ r c m X hX hcell (by decide)
  · obtain ⟨hO, -, hp⟩ := hg.player2Won hs
    refine ⟨?_, Or.inr ⟨hs, hp⟩⟩
    rw [hp]
    exact CheckWin_set_of_win _ r c m O hO hcell (by decide)
  · exact absurd hcell (IsFull_get _ r c (hg.draw hs).1)

theorem CheckWin_set_false (b : Board) (r c : Fin BOARD_SIZE) (m p : Cell)
    (h : CheckWin b p = false) (hm : m ≠ p) : CheckWin (b.set r c m) p = false := by
  cases hw : CheckWin (b.set r c m) p with
  | false => rfl
  | true =>
    rw [CheckWin_of_set_other b r c m p hw hm] at h
    exact absurd h (by decide)

theorem Consistent.step {g g' : Game} {row col : Int} (hg : Consistent g)
    (h : g.MakeMove row col = some (g', none)) : Consistent g' := by
  obtain ⟨r, c, -, -, hcell, hboard, hcount, hcase⟩ := MakeMove_success h
  have hmark : g.CurrentPlayer.GetMark ≠ Empty := by
    rcases hg.player with hp | hp <;> rw [hp] <;> decide
  have hcnt : g'.MoveCount = g'.Board.CountOccupied := by
    rw [hcount, hboard, CountOccupied_set _ _ _ _ hcell hmark, hg.count]
    have := CountOccupied_bounds g.Board
    unfold wrapInt
    omega
  obtain ⟨hopp1, hopp2⟩ := hg.opponent_no_win hcell
  have hO' : g.CurrentPlayer = Player1 → CheckWin g'.Board O = false := by
    intro hp
    rw [hboard, hp]
    exact CheckWin_set_false _ r c _ O (hopp1 hp) (by decide)
  have hX' : g.CurrentPlayer = Player2 → CheckWin g'.Board X = false := by
    intro hp
    rw [hboard, hp]
    exact CheckWin_set_false _ r c _ X (hopp2 hp) (by decide)
  rcases hcase with ⟨hw, hp, hs, hc⟩ | ⟨hw, hp, hs, hc⟩ | ⟨hw, hd, hs, hc⟩ | ⟨hw, hd, hs, hc⟩
  · -- the mover is Player1 and wins
    rw [hp] at hw
    refine ⟨hcnt, by rw [hc]; exact hg.player, Or.inr (Or.inl hs), ?_, ?_, ?_, ?_⟩
    · intro h0; rw [hs] at h0; exact absurd h0 (by decide)
    · intro _; exact ⟨hw, hO' hp, hc.trans hp⟩
    · intro h0; rw [hs] at h0; exact absurd h0 (by decide)
    · intro h0; rw [hs] at h0; exact absurd h0 (by decide)
  · -- the mover is Player2 and wins
    have hp2 : g.CurrentPlayer = Player2 := hg.player.resolve_left hp
    rw [hp2] at hw
    refine ⟨hcnt, by rw [hc]; exact hg.player, Or.inr (Or.inr (Or.inl hs)), ?_, ?_, ?_, ?_⟩
    · intro h0; rw [hs] at h0; exact absurd h0 (by decide)
    · intro h0; rw [hs] at h0; exact absurd h0 (by decide)
    · intro _; exact ⟨hw, hX' hp2, hc.trans hp2⟩
    · intro h0; rw [hs] at h0; exact absurd h0 (by decide)
  · -- the board fills without a line
    refine ⟨hcnt, by rw [hc]; exact hg.player, Or.inr (Or.inr (Or.inr hs)), ?_, ?_, ?_, ?_⟩
    · intro h0; rw [hs] at h0; exact absurd h0 (by decide)
    · intro h0; rw [hs] at h0; exact absurd h0 (by decide)
    · intro h0; rw [hs] at h0; exact absurd h0 (by decide)
    · intro _; exact (CheckDraw_iff _).1 hd
  · -- the game continues
    have hprog : g.State = InProgress := by
      by_contra hterm
      have := (hg.winner_keeps_line hterm hcell g.CurrentPlayer.GetMark).1
      rw [← hboard, hw] at this
      exact absurd this (by decide)
    have hboth : CheckWin g'.Board X = false ∧ CheckWin g'.Board O = false := by
      rcases hg.player with hp | hp
      · rw [hp] at hw
        exact ⟨hw, hO' hp⟩
      · rw [hp] at hw
        exact ⟨hX' hp, hw⟩
    have hs' : g'.State = InProgress := hs.trans hprog
    refine ⟨hcnt, ?_, Or.inl hs', fun _ => hboth, ?_, ?_, ?_⟩
    · rw [hc]
      rcases hg.player with hp | hp <;> rw [hp]
      · exact Or.inr (by decide)
      · exact Or.inl (by decide)
    · intro h0; rw [hs'] at h0; exact absurd h0 (by decide)
    · intro h0; rw [hs'] at h0; exact absurd h0 (by decide)
    · intro h0; rw [hs'] at h0; exact absurd h0 (by decide)

theorem Consistent.of_playMoves {g g' : Game} (moves : List (Int × Int)) (hg : Consistent g)
    (h : playMoves g moves = some g') : Consistent g' := by
  induction moves generalizing g with
  | nil =>
    simp only [game.playMoves, Option.some.injEq] at h
    exact h ▸ hg
  | cons mv rest ih =>
    obtain ⟨row, col⟩ := mv
    simp only [game.playMoves] at h
    split at h
    · rename_i g1 hstep
      exact ih (hg.step hstep) h
    · simp at h

theorem Reachable.consistent {g : Game} (h : Reachable g) : Consistent g := by
  obtain ⟨moves, hmoves⟩ := h
  exact Consistent_NewGame.of_playMoves moves hmoves

/-! ## The move protocol -/

/-- C1: for every game `g`, whatever its `State`, and all integers `row`,
`col`, if `row` or `col` is outside `{0,1,2}` then `g.MakeMove(row, col)`
returns `g` with the error `ErrInvalidRange`.  The call returns normally
although indexing the board at `(row, col)` would panic, so the board is not
accessed there. -/
theorem MakeMove_invalid_range (g : Game) (row col : Int)
    (h : ¬ (row = 0 ∨ row = 1 ∨ row = 2) ∨ ¬ (col = 0 ∨ col = 1 ∨ col = 2)) :
    g.MakeMove row col = some (g, some ErrInvalidRange) ∧
      g.Board.IsCellEmpty row col = none ∧ g.Board.GetCell row col = none := by
  have hrange : row < 0 ∨ 2 < row ∨ col < 0 ∨ 2 < col := by omega
  refine ⟨MakeMove_outOfRange g hrange, ?_, ?_⟩
  · unfold Board.IsCellEmpty
    by_cases hrow : row < 0 ∨ 2 < row
    · rw [toIndex_outOfRange hrow]
    · rw [toIndex_outOfRange (i := col) (by omega)]
      split <;> simp_all
  · unfold Board.GetCell
    by_cases hrow : row < 0 ∨ 2 < row
    · rw [toIndex_outOfRange hrow]
    · rw [toIndex_outOfRange (i := col) (by omega)]
      split <;> simp_all

/-- Witness for C1: the move `(3, 1)` on the initial game. -/
theorem MakeMove_invalid_range_witness :
    (¬ ((3 : Int) = 0 ∨ (3 : Int) = 1 ∨ (3 : Int) = 2) ∨
        ¬ ((1 : Int) = 0 ∨ (1 : Int) = 1 ∨ (1 : Int) = 2)) ∧
      (NewGame.MakeMove 3 1 = some (NewGame, some ErrInvalidRange) ∧
        NewGame.Board.IsCellEmpty 3 1 = none ∧ NewGame.Board.GetCell 3 1 = none) :=
  ⟨by decide, MakeMove_invalid_range NewGame 3 1 (by decide)⟩

/-- C2: for every game `g` and all `row`, `col` in `{0,1,2}`, if the cell of
`g.Board` at `(row, col)` is not `Empty` then `g.MakeMove(row, col)` returns `g`
with the error `ErrCellOccupied`, which is a different error from
`ErrInvalidRange`. -/
theorem MakeMove_cell_occupied (g : Game) (row col : Int)
    (hrow : row = 0 ∨ row = 1 ∨ row = 2) (hcol : col = 0 ∨ col = 1 ∨ col = 2)
    (hocc : g.Board.GetCell row col ≠ some Empty) :
    g.MakeMove row col = some (g, some ErrCellOccupied) ∧
      ErrCellOccupied ≠ ErrInvalidRange := by
  obtain ⟨r, hr⟩ := toIndex_inRange (i := row) (by omega) (by omega)
  obtain ⟨c, hc⟩ := toIndex_inRange (i := col) (by omega) (by omega)
  have hcell : g.Board.get r c ≠ Empty := by
    intro hE
    apply hocc
    simp only [Board.GetCell, hr, hc, hE]
  refine ⟨?_, by decide⟩
  rw [MakeMove_inRange g hr hc, if_neg hcell]

/-- Witness for C2: a second move on the centre cell after `X` took it. -/
theorem MakeMove_cell_occupied_witness :
    (Game.mk ⟨⟨0, 0, 0⟩, ⟨0, 1, 0⟩, ⟨0, 0, 0⟩⟩ Player2 InProgress 1).Board.GetCell 1 1
        ≠ some Empty ∧
      ((Game.mk ⟨⟨0, 0, 0⟩, ⟨0, 1, 0⟩, ⟨0, 0, 0⟩⟩ Player2 InProgress 1).MakeMove 1 1 =
          some (Game.mk ⟨⟨0, 0, 0⟩, ⟨0, 1, 0⟩, ⟨0, 0, 0⟩⟩ Player2 InProgress 1,
            some ErrCellOccupied) ∧
        ErrCellOccupied ≠ ErrInvalidRange) :=
  ⟨by decide, MakeMove_cell_occupied _ 1 1 (by decide) (by decide) (by decide)⟩

/-- C3: atomicity on error.  For every game `g` and all integers `row`, `col`,
whenever `g.MakeMove(row, col)` returns an error, the game it returns equals `g`
in every field: `Board`, `CurrentPlayer`, `State` and `MoveCount`. -/
theorem MakeMove_error_unchanged (g g' : Game) (row col : Int) (e : GameError)
    (h : g.MakeMove row col = some (g', some e)) :
    g'.Board = g.Board ∧ g'.CurrentPlayer = g.CurrentPlayer ∧ g'.State = g.State ∧
      g'.MoveCount = g.MoveCount ∧ g' = g := by
  have hg : g' = g := MakeMove_error_eq h
  subst hg
  exact ⟨rfl, rfl, rfl, rfl, rfl⟩

/-- Witness for C3: the rejected move `(10, 10)` on the initial game. -/
theorem MakeMove_error_unchanged_witness :
    NewGame.MakeMove 10 10 = some (NewGame, some ErrInvalidRange) ∧
      (NewGame.Board = NewGame.Board ∧ NewGame.CurrentPlayer = NewGame.CurrentPlayer ∧
        NewGame.State = NewGame.State ∧ NewGame.MoveCount = NewGame.MoveCount ∧
        NewGame = NewGame) :=
  ⟨by decide, MakeMove_error_unchanged NewGame NewGame 10 10 ErrInvalidRange (by decide)⟩

/-- C4: for every game `g` and all `row`, `col` in `{0,1,2}` whose cell of
`g.Board` is `Empty`, `g.MakeMove(row, col)` returns no error; the returned
board holds the mark of `g.CurrentPlayer` (`X` for `Player1`, `O` for `Player2`)
at `(row, col)` and equals `g.Board` at every other position; and the returned
`MoveCount` is Go's `g.MoveCount + 1`, which is the successor of `g.MoveCount`
for every count below the largest `int`. -/
theorem MakeMove_places_mark (g : Game) (row col : Int)
    (hrow : row = 0 ∨ row = 1 ∨ row = 2) (hcol : col = 0 ∨ col = 1 ∨ col = 2)
    (hempty : g.Board.GetCell row col = some Empty) :
    ∃ g' : Game, g.MakeMove row col = some (g', none) ∧
      g'.Board.GetCell row col = some g.CurrentPlayer.GetMark ∧
      (g.CurrentPlayer = Player1 → g'.Board.GetCell row col = some X) ∧
      (g.CurrentPlayer = Player2 → g'.Board.GetCell row col = some O) ∧
      (∀ row' col' : Int, ¬ (row' = row ∧ col' = col) →
        g'.Board.GetCell row' col' = g.Board.GetCell row' col') ∧
      g'.MoveCount = wrapInt (g.MoveCount + 1) ∧
      (-9223372036854775808 ≤ g.MoveCount → g.MoveCount < 9223372036854775807 →
        g'.MoveCount = g.MoveCount + 1) := by
  obtain ⟨r, hr⟩ := toIndex_inRange (i := row) (by omega) (by omega)
  obtain ⟨c, hc⟩ := toIndex_inRange (i := col) (by omega) (by omega)
  have hcell : g.Board.get r c = Empty := by
    simpa only [Board.GetCell, hr, hc, Option.some.injEq] using hempty
  obtain ⟨⟨g', e⟩, hres⟩ := MakeMove_total g row col
  have he : e = none := by
    rw [MakeMove_inRange g hr hc, if_pos hcell] at hres
    split_ifs at hres <;> simp only [Option.some.injEq, Prod.mk.injEq] at hres <;>
      exact hres.2.symm
  subst he
  obtain ⟨r', c', hr', hc', -, hboard, hcount, -⟩ := MakeMove_success hres
  rw [hr] at hr'
  rw [hc] at hc'
  simp only [Option.some.injEq] at hr' hc'
  subst hr' hc'
  have hat : g'.Board.GetCell row col = some g.CurrentPlayer.GetMark := by
    simp only [Board.GetCell, hr, hc, hboard, get_set, and_self, if_true]
  refine ⟨g', hres, hat, ?_, ?_, ?_, hcount, ?_⟩
  · intro hp
    rw [hat, hp]
    rfl
  · intro hp
    rw [hat, hp]
    rfl
  · intro row' col' hne
    unfold Board.GetCell
    cases hr1 : toIndex row' with
    | none => rfl
    | some r1 =>
      cases hc1 : toIndex col' with
      | none => rfl
      | some c1 =>
        have e1 := toIndex_eq_some hr1
        have e2 := toIndex_eq_some hc1
        have e3 := toIndex_eq_some hr
        have e4 := toIndex_eq_some hc
        have hne' : ¬ (r1 = r ∧ c1 = c) := by
          rintro ⟨rfl, rfl⟩
          exact hne ⟨e1.trans e3.symm, e2.trans e4.symm⟩
        simp only [hboard, get_set, if_neg hne']
  · intro hlo hhi
    rw [hcount]
    unfold wrapInt
    omega

/-- Witness for C4: the opening move `(1, 1)` on the initial game. -/
theorem MakeMove_places_mark_witness :
    NewGame.Board.GetCell 1 1 = some Empty ∧
      ∃ g' : Game, NewGame.MakeMove 1 1 = some (g', none) ∧
        g'.Board.GetCell 1 1 = some NewGame.CurrentPlayer.GetMark ∧
        (NewGame.CurrentPlayer = Player1 → g'.Board.GetCell 1 1 = some X) ∧
        (NewGame.CurrentPlayer = Player2 → g'.Board.GetCell 1 1 = some O) ∧
        (∀ row' col' : Int, ¬ (row' = 1 ∧ col' = 1) →
          g'.Board.GetCell row' col' = NewGame.Board.GetCell row' col') ∧
        g'.MoveCount = wrapInt (NewGame.MoveCount + 1) ∧
        (-9223372036854775808 ≤ NewGame.MoveCount → NewGame.MoveCount < 9223372036854775807 →
          g'.MoveCount = NewGame.MoveCount + 1) :=
  ⟨by decide, MakeMove_places_mark NewGame 1 1 (by decide) (by decide) (by decide)⟩

/-- C5: winning transition.  For every game `g` and every successful
`g.MakeMove(row, col)`, if `CheckWin` holds of the returned board and the mark
of `g.CurrentPlayer`, then the returned `State` is `Player1Won` when
`g.CurrentPlayer = Player1` and `Player2Won` when `g.CurrentPlayer = Player2`,
and the returned `CurrentPlayer` is `g.CurrentPlayer`, not switched. -/
theorem MakeMove_winning (g g' : Game) (row col : Int)
    (hmove : g.MakeMove row col = some (g', none))
    (hwin : CheckWin g'.Board g.CurrentPlayer.GetMark = true) :
    (g.CurrentPlayer = Player1 → g'.State = Player1Won) ∧
      (g.CurrentPlayer = Player2 → g'.State = Player2Won) ∧
      g'.CurrentPlayer = g.CurrentPlayer := by
  obtain ⟨r, c, -, -, -, -, -, hcase⟩ := MakeMove_success hmove
  rcases hcase with ⟨-, hp, hs, hc⟩ | ⟨-, hp, hs, hc⟩ | ⟨hno, -⟩ | ⟨hno, -⟩
  · exact ⟨fun _ => hs, fun h2 => by rw [h2] at hp; exact absurd hp (by decide), hc⟩
  · exact ⟨fun h1 => absurd h1 hp, fun _ => hs, hc⟩
  · rw [hno] at hwin
    exact absurd hwin (by decide)
  · rw [hno] at hwin
    exact absurd hwin (by decide)

/-- Witness for C5: `X` completes the main diagonal with `(2, 2)`. -/
theorem MakeMove_winning_witness :
    ((Game.mk ⟨⟨1, 2, 2⟩, ⟨0, 1, 0⟩, ⟨0, 0, 0⟩⟩ Player1 InProgress 4).MakeMove 2 2 =
        some (Game.mk ⟨⟨1, 2, 2⟩, ⟨0, 1, 0⟩, ⟨0, 0, 1⟩⟩ Player1 Player1Won 5, none) ∧
      CheckWin (Game.mk ⟨⟨1, 2, 2⟩, ⟨0, 1, 0⟩, ⟨0, 0, 1⟩⟩ Player1 Player1Won 5).Board
        (Game.mk ⟨⟨1, 2, 2⟩, ⟨0, 1, 0⟩, ⟨0, 0, 0⟩⟩ Player1 InProgress 4).CurrentPlayer.GetMark =
        true) ∧
      (((Game.mk ⟨⟨1, 2, 2⟩, ⟨0, 1, 0⟩, ⟨0, 0, 0⟩⟩ Player1 InProgress 4).CurrentPlayer = Player1 →
          (Game.mk ⟨⟨1, 2, 2⟩, ⟨0, 1, 0⟩, ⟨0, 0, 1⟩⟩ Player1 Player1Won 5).State = Player1Won) ∧
        ((Game.mk ⟨⟨1, 2, 2⟩, ⟨0, 1, 0⟩, ⟨0, 0, 0⟩⟩ Player1 InProgress 4).CurrentPlayer = Player2 →
          (Game.mk ⟨⟨1, 2, 2⟩, ⟨0, 1, 0⟩, ⟨0, 0, 1⟩⟩ Player1 Player1Won 5).State = Player2Won) ∧
        (Game.mk ⟨⟨1, 2, 2⟩, ⟨0, 1, 0⟩, ⟨0, 0, 1⟩⟩ Player1 Player1Won 5).CurrentPlayer =
          (Game.mk ⟨⟨1, 2, 2⟩, ⟨0, 1, 0⟩, ⟨0, 0, 0⟩⟩ Player1 InProgress 4).CurrentPlayer) :=
  ⟨⟨by decide, by decide⟩,
    MakeMove_winning (Game.mk ⟨⟨1, 2, 2⟩, ⟨0, 1, 0⟩, ⟨0, 0, 0⟩⟩ Player1 InProgress 4)
      (Game.mk ⟨⟨1, 2, 2⟩, ⟨0, 1, 0⟩, ⟨0, 0, 1⟩⟩ Player1 Player1Won 5) 2 2
      (by decide) (by decide)⟩

/-- C6: draw transition.  For every game `g` obtained from `NewGame()` by
successful `MakeMove` calls with `State = InProgress`, and every successful
`g.MakeMove(row, col)`: if `CheckWin` fails for the mover on the returned board
and the returned `MoveCount` is 9, then the returned `State` is `Draw` and the
returned `CurrentPlayer` is `g.CurrentPlayer`, not switched. -/
theorem MakeMove_draw (g g' : Game) (row col : Int)
    (hreach : Reachable g) (hstate : g.State = InProgress)
    (hmove : g.MakeMove row col = some (g', none))
    (hnowin : CheckWin g'.Board g.CurrentPlayer.GetMark = false)
    (hnine : g'.MoveCount = 9) :
    g'.State = Draw ∧ g'.CurrentPlayer = g.CurrentPlayer := by
  have hg' : Consistent g' := hreach.consistent.step hmove
  have hfull : g'.Board.IsFull = true := by
    rw [IsFull_iff_count, ← hg'.count, hnine]
  obtain ⟨r, c, -, -, -, -, -, hcase⟩ := MakeMove_success hmove
  rcases hcase with ⟨hw, -⟩ | ⟨hw, -⟩ | ⟨-, -, hs, hc⟩ | ⟨-, hd, hs, -⟩
  · rw [hw] at hnowin
    exact absurd hnowin (by decide)
  · rw [hw] at hnowin
    exact absurd hnowin (by decide)
  · exact ⟨hs, hc⟩
  · have hboth := hg'.inProgress (hs.trans hstate)
    rw [(CheckDraw_iff g'.Board).2 ⟨hfull, hboth⟩] at hd
    exact absurd hd (by decide)

/-- Witness for C6: the ninth move `(2, 2)` of the full-board draw. -/
theorem MakeMove_draw_witness :
    (Reachable (Game.mk ⟨⟨1, 2, 1⟩, ⟨1, 2, 2⟩, ⟨2, 1, 0⟩⟩ Player1 InProgress 8) ∧
      (Game.mk ⟨⟨1, 2, 1⟩, ⟨1, 2, 2⟩, ⟨2, 1, 0⟩⟩ Player1 InProgress 8).MakeMove 2 2 =
        some (Game.mk ⟨⟨1, 2, 1⟩, ⟨1, 2, 2⟩, ⟨2, 1, 1⟩⟩ Player1 Draw 9, none)) ∧
      ((Game.mk ⟨⟨1, 2, 1⟩, ⟨1, 2, 2⟩, ⟨2, 1, 1⟩⟩ Player1 Draw 9).State = Draw ∧
        (Game.mk ⟨⟨1, 2, 1⟩, ⟨1, 2, 2⟩, ⟨2, 1, 1⟩⟩ Player1 Draw 9).CurrentPlayer =
          (Game.mk ⟨⟨1, 2, 1⟩, ⟨1, 2, 2⟩, ⟨2, 1, 0⟩⟩ Player1 InProgress 8).CurrentPlayer) :=
  ⟨⟨⟨[(0, 0), (0, 1), (0, 2), (1, 1), (1, 0), (1, 2), (2, 1), (2, 0)], by decide⟩, by decide⟩,
    MakeMove_draw (Game.mk ⟨⟨1, 2, 1⟩, ⟨1, 2, 2⟩, ⟨2, 1, 0⟩⟩ Player1 InProgress 8)
      (Game.mk ⟨⟨1, 2, 1⟩, ⟨1, 2, 2⟩, ⟨2, 1, 1⟩⟩ Player1 Draw 9) 2 2
      ⟨[(0, 0), (0, 1), (0, 2), (1, 1), (1, 0), (1, 2), (2, 1), (2, 0)], by decide⟩
      (by decide) (by decide) (by decide) (by decide)⟩

/-- C7: continue transition.  For every game `g` with `State = InProgress` and
every successful `g.MakeMove(row, col)`, if `CheckWin` fails for the mover on
the returned board and that board is not full, then the returned `State` is
`InProgress` and the returned `CurrentPlayer` is `g.CurrentPlayer.Other()`. -/
theorem MakeMove_continue (g g' : Game) (row col : Int)
    (hstate : g.State = InProgress)
    (hmove : g.MakeMove row col = some (g', none))
    (hnowin : CheckWin g'.Board g.CurrentPlayer.GetMark = false)
    (hnotfull : g'.Board.IsFull = false) :
    g'.State = InProgress ∧ g'.CurrentPlayer = g.CurrentPlayer.Other := by
  obtain ⟨r, c, -, -, -, -, -, hcase⟩ := MakeMove_success hmove
  rcases hcase with ⟨hw, -⟩ | ⟨hw, -⟩ | ⟨-, hd, -⟩ | ⟨-, -, hs, hc⟩
  · rw [hw] at hnowin
    exact absurd hnowin (by decide)
  · rw [hw] at hnowin
    exact absurd hnowin (by decide)
  · simp [CheckDraw, hnotfull] at hd
  · exact ⟨hs.trans hstate, hc⟩

/-- Witness for C7: the opening move `(1, 1)` hands the turn to `Player2`. -/
theorem MakeMove_continue_witness :
    NewGame.MakeMove 1 1 =
        some (Game.mk ⟨⟨0, 0, 0⟩, ⟨0, 1, 0⟩, ⟨0, 0, 0⟩⟩ Player2 InProgress 1, none) ∧
      ((Game.mk ⟨⟨0, 0, 0⟩, ⟨0, 1, 0⟩, ⟨0, 0, 0⟩⟩ Player2 InProgress 1).State = InProgress ∧
        (Game.mk ⟨⟨0, 0, 0⟩, ⟨0, 1, 0⟩, ⟨0, 0, 0⟩⟩ Player2 InProgress 1).CurrentPlayer =
          NewGame.CurrentPlayer.Other) :=
  ⟨by decide,
    MakeMove_continue NewGame (Game.mk ⟨⟨0, 0, 0⟩, ⟨0, 1, 0⟩, ⟨0, 0, 0⟩⟩ Player2 InProgress 1)
      1 1 (by decide) (by decide) (by decide) (by decide)⟩

/-- C8, refuted as stated: the game reached by the diagonal win of `X` has
`State = Player1Won`, yet `MakeMove(1, 0)` on it succeeds and returns a game
with another `Board` and another `MoveCount`. -/
theorem terminal_freeze_counterexample :
    playMoves NewGame [(0, 0), (0, 1), (1, 1), (0, 2), (2, 2)] =
        some (Game.mk ⟨⟨1, 2, 2⟩, ⟨0, 1, 0⟩, ⟨0, 0, 1⟩⟩ Player1 Player1Won 5) ∧
      (Game.mk ⟨⟨1, 2, 2⟩, ⟨0, 1, 0⟩, ⟨0, 0, 1⟩⟩ Player1 Player1Won 5).State ≠ InProgress ∧
      (Game.mk ⟨⟨1, 2, 2⟩, ⟨0, 1, 0⟩, ⟨0, 0, 1⟩⟩ Player1 Player1Won 5).MakeMove 1 0 =
        some (Game.mk ⟨⟨1, 2, 2⟩, ⟨1, 1, 0⟩, ⟨0, 0, 1⟩⟩ Player1 Player1Won 6, none) ∧
      (Game.mk ⟨⟨1, 2, 2⟩, ⟨1, 1, 0⟩, ⟨0, 0, 1⟩⟩ Player1 Player1Won 6).Board ≠
        (Game.mk ⟨⟨1, 2, 2⟩, ⟨0, 1, 0⟩, ⟨0, 0, 1⟩⟩ Player1 Player1Won 5).Board ∧
      (Game.mk ⟨⟨1, 2, 2⟩, ⟨1, 1, 0⟩, ⟨0, 0, 1⟩⟩ Player1 Player1Won 6).MoveCount ≠
        (Game.mk ⟨⟨1, 2, 2⟩, ⟨0, 1, 0⟩, ⟨0, 0, 1⟩⟩ Player1 Player1Won 5).MoveCount := by
  refine ⟨by decide, by decide, by decide, by decide, by decide⟩

/-- C8, amended: for every game `g` obtained from `NewGame()` by successful
moves with `State ≠ InProgress` and all integers `row`, `col`, the game returned
by `g.MakeMove(row, col)` has the `CurrentPlayer` and the `State` of `g`.  Its
`Board` and `MoveCount` are those of `g` exactly when the call returns an
error, which it always does when `State = Draw`; the call succeeds exactly when
`(row, col)` is an `Empty` cell of the grid, and then the mark of
`g.CurrentPlayer` is written there and `MoveCount` grows by one. -/
theorem terminal_game_move (g : Game) (row col : Int)
    (hreach : Reachable g) (hterm : g.State ≠ InProgress) :
    ∃ (g' : Game) (e : Option GameError), g.MakeMove row col = some (g', e) ∧
      g'.CurrentPlayer = g.CurrentPlayer ∧ g'.State = g.State ∧
      (e ≠ none → g'.Board = g.Board ∧ g'.MoveCount = g.MoveCount) ∧
      (g.State = Draw → e ≠ none) ∧
      (e = none ↔ g.Board.GetCell row col = some Empty) ∧
      (e = none → g'.Board.GetCell row col = some g.CurrentPlayer.GetMark ∧
        g'.Board ≠ g.Board ∧ g'.MoveCount = g.MoveCount + 1) := by
  have hg := hreach.consistent
  obtain ⟨⟨g', e⟩, hres⟩ := MakeMove_total g row col
  refine ⟨g', e, hres, ?_⟩
  cases e with
  | some err =>
    have heq : g' = g := MakeMove_error_eq hres
    subst heq
    refine ⟨rfl, rfl, fun _ => ⟨rfl, rfl⟩, fun _ => by simp, ?_, fun h => by simp at h⟩
    constructor
    · intro h
      simp at h
    · intro hempty
      exfalso
      by_cases hrange : row < 0 ∨ 2 < row ∨ col < 0 ∨ 2 < col
      · have hnone : g'.Board.GetCell row col = none := by
          unfold Board.GetCell
          by_cases hrow : row < 0 ∨ 2 < row
          · rw [toIndex_outOfRange hrow]
          · rw [toIndex_outOfRange (i := col) (by omega)]
            split <;> simp_all
        rw [hnone] at hempty
        simp at hempty
      · obtain ⟨r, hr⟩ := toIndex_inRange (i := row) (by omega) (by omega)
        obtain ⟨c, hc⟩ := toIndex_inRange (i := col) (by omega) (by omega)
        have hcell : g'.Board.get r c = Empty := by
          simpa only [Board.GetCell, hr, hc, Option.some.injEq] using hempty
        rw [MakeMove_inRange g' hr hc, if_pos hcell] at hres
        split_ifs at hres <;> simp at hres
  | none =>
    obtain ⟨r, c, hr, hc, hcell, hboard, hcount, hcase⟩ := MakeMove_success hres
    obtain ⟨hwin, hwho⟩ := hg.winner_keeps_line hterm hcell g.CurrentPlayer.GetMark
    rw [← hboard] at hwin
    have hmark : g.CurrentPlayer.GetMark ≠ Empty := by
      rcases hg.player with hp | hp <;> rw [hp] <;> decide
    have hplayer_state : g'.CurrentPlayer = g.CurrentPlayer ∧ g'.State = g.State := by
      rcases hcase with ⟨-, hp, hs, hcp⟩ | ⟨-, hp, hs, hcp⟩ | ⟨hw, -⟩ | ⟨hw, -⟩
      · rcases hwho with ⟨hs1, -⟩ | ⟨-, hp2⟩
        · exact ⟨hcp, hs.trans hs1.symm⟩
        · rw [hp2] at hp
          exact absurd hp (by decide)
      · rcases hwho with ⟨-, hp1⟩ | ⟨hs2, -⟩
        · exact absurd hp1 hp
        · exact ⟨hcp, hs.trans hs2.symm⟩
      · rw [hw] at hwin
        exact absurd hwin (by decide)
      · rw [hw] at hwin
        exact absurd hwin (by decide)
    have hget : g'.Board.GetCell row col = some g.CurrentPlayer.GetMark := by
      simp only [Board.GetCell, hr, hc, hboard, get_set, and_self, if_true]
    have hold : g.Board.GetCell row col = some Empty := by
      simp only [Board.GetCell, hr, hc, hcell]
    refine ⟨hplayer_state.1, hplayer_state.2, fun h => absurd rfl h, ?_, ⟨fun _ => hold, fun _ => rfl⟩,
      fun _ => ⟨hget, ?_, ?_⟩⟩
    · intro hdraw
      exact absurd hcell (IsFull_get _ r c (hg.draw hdraw).1)
    · intro hb
      rw [hb, hold] at hget
      simp only [Option.some.injEq] at hget
      exact hmark hget.symm
    · rw [hcount, hg.count]
      have := CountOccupied_bounds g.Board
      unfold wrapInt
      omega

/-- Witness for C8, amended: the move `(1, 0)` after the diagonal win of `X`. -/
theorem terminal_game_move_witness :
    (Reachable (Game.mk ⟨⟨1, 2, 2⟩, ⟨0, 1, 0⟩, ⟨0, 0, 1⟩⟩ Player1 Player1Won 5) ∧
      (Game.mk ⟨⟨1, 2, 2⟩, ⟨0, 1, 0⟩, ⟨0, 0, 1⟩⟩ Player1 Player1Won 5).State ≠ InProgress) ∧
      ∃ (g' : Game) (e : Option GameError),
        (Game.mk ⟨⟨1, 2, 2⟩, ⟨0, 1, 0⟩, ⟨0, 0, 1⟩⟩ Player1 Player1Won 5).MakeMove 1 0 =
          some (g', e) ∧
        g'.CurrentPlayer = Player1 ∧ g'.State = Player1Won ∧
        (e ≠ none → g'.Board = ⟨⟨1, 2, 2⟩, ⟨0, 1, 0⟩, ⟨0, 0, 1⟩⟩ ∧ g'.MoveCount = 5) ∧
        ((Player1Won : GameState) = Draw → e ≠ none) ∧
        (e = none ↔
          Board.GetCell ⟨⟨1, 2, 2⟩, ⟨0, 1, 0⟩, ⟨0, 0, 1⟩⟩ 1 0 = some Empty) ∧
        (e = none → g'.Board.GetCell 1 0 = some (Player.GetMark Player1) ∧
          g'.Board ≠ ⟨⟨1, 2, 2⟩, ⟨0, 1, 0⟩, ⟨0, 0, 1⟩⟩ ∧ g'.MoveCount = 5 + 1) :=
  ⟨⟨⟨[(0, 0), (0, 1), (1, 1), (0, 2), (2, 2)], by decide⟩, by decide⟩,
    terminal_game_move (Game.mk ⟨⟨1, 2, 2⟩, ⟨0, 1, 0⟩, ⟨0, 0, 1⟩⟩ Player1 Player1Won 5) 1 0
      ⟨[(0, 0), (0, 1), (1, 1), (0, 2), (2, 2)], by decide⟩ (by decide)⟩

/-- C9: terminal states are sinks.  For every game `g` obtained from
`NewGame()` by successful `MakeMove` calls whose `State` is `Player1Won`,
`Player2Won` or `Draw`, and all integers `row`, `col`, the call
`g.MakeMove(row, col)` returns a game whose `State` is `g.State`. -/
theorem terminal_state_sink (g : Game) (row col : Int) (hreach : Reachable g)
    (hterm : g.State = Player1Won ∨ g.State = Player2Won ∨ g.State = Draw) :
    ∃ (g' : Game) (e : Option GameError),
      g.MakeMove row col = some (g', e) ∧ g'.State = g.State := by
  have hg := hreach.consistent
  have hne : g.State ≠ InProgress := by
    rcases hterm with h | h | h <;> rw [h] <;> decide
  obtain ⟨⟨g', e⟩, hres⟩ := MakeMove_total g row col
  refine ⟨g', e, hres, ?_⟩
  cases e with
  | some err => rw [MakeMove_error_eq hres]
  | none =>
    obtain ⟨r, c, -, -, hcell, hboard, -, hcase⟩ := MakeMove_success hres
    obtain ⟨hwin, hwho⟩ := hg.winner_keeps_line hne hcell g.CurrentPlayer.GetMark
    rw [← hboard] at hwin
    rcases hcase with ⟨-, hp, hs, -⟩ | ⟨-, hp, hs, -⟩ | ⟨hw, -⟩ | ⟨-, -, hs, -⟩
    · rcases hwho with ⟨hs1, -⟩ | ⟨-, hp2⟩
      · exact hs.trans hs1.symm
      · rw [hp2] at hp
        exact absurd hp (by decide)
    · rcases hwho with ⟨-, hp1⟩ | ⟨hs2, -⟩
      · exact absurd hp1 hp
      · exact hs.trans hs2.symm
    · rw [hw] at hwin
      exact absurd hwin (by decide)
    · exact hs

/-- Witness for C9: the move `(1, 0)` after the diagonal win of `X` leaves
`State = Player1Won`. -/
theorem terminal_state_sink_witness :
    (Reachable (Game.mk ⟨⟨1, 2, 2⟩, ⟨0, 1, 0⟩, ⟨0, 0, 1⟩⟩ Player1 Player1Won 5) ∧
      ((Player1Won : GameState) = Player1Won ∨ (Player1Won : GameState) = Player2Won ∨
        (Player1Won : GameState) = Draw)) ∧
      ∃ (g' : Game) (e : Option GameError),
        (Game.mk ⟨⟨1, 2, 2⟩, ⟨0, 1, 0⟩, ⟨0, 0, 1⟩⟩ Player1 Player1Won 5).MakeMove 1 0 =
          some (g', e) ∧ g'.State = Player1Won :=
  ⟨⟨⟨[(0, 0), (0, 1), (1, 1), (0, 2), (2, 2)], by decide⟩, by decide⟩,
    terminal_state_sink (Game.mk ⟨⟨1, 2, 2⟩, ⟨0, 1, 0⟩, ⟨0, 0, 1⟩⟩ Player1 Player1Won 5) 1 0
      ⟨[(0, 0), (0, 1), (1, 1), (0, 2), (2, 2)], by decide⟩ (by decide)⟩

/-- C10: count invariant (P1).  For every game obtained from `NewGame()` by a
sequence of successful `MakeMove` calls, `MoveCount` equals
`Board.CountOccupied()`, and that is the number of positions of the grid whose
cell is not `Empty`. -/
theorem moveCount_eq_countOccupied (g : Game) (hreach : Reachable g) :
    g.MoveCount = g.Board.CountOccupied ∧
      g.Board.CountOccupied =
        ((Finset.univ.filter fun q : Fin BOARD_SIZE × Fin BOARD_SIZE =>
          g.Board.get q.1 q.2 ≠ Empty).card : Int) :=
  ⟨hreach.consistent.count, CountOccupied_eq_card g.Board⟩

/-- Witness for C10: the game after the moves `(1, 1)` and `(0, 0)`. -/
theorem moveCount_eq_countOccupied_witness :
    Reachable (Game.mk ⟨⟨2, 0, 0⟩, ⟨0, 1, 0⟩, ⟨0, 0, 0⟩⟩ Player1 InProgress 2) ∧
      ((Game.mk ⟨⟨2, 0, 0⟩, ⟨0, 1, 0⟩, ⟨0, 0, 0⟩⟩ Player1 InProgress 2).MoveCount =
          (Game.mk ⟨⟨2, 0, 0⟩, ⟨0, 1, 0⟩, ⟨0, 0, 0⟩⟩ Player1 InProgress 2).Board.CountOccupied ∧
        (Game.mk ⟨⟨2, 0, 0⟩, ⟨0, 1, 0⟩, ⟨0, 0, 0⟩⟩ Player1 InProgress 2).Board.CountOccupied =
          ((Finset.univ.filter fun q : Fin BOARD_SIZE × Fin BOARD_SIZE =>
            (Game.mk ⟨⟨2, 0, 0⟩, ⟨0, 1, 0⟩, ⟨0, 0, 0⟩⟩ Player1 InProgress 2).Board.get q.1 q.2
              ≠ Empty).card : Int)) :=
  ⟨⟨[(1, 1), (0, 0)], by decide⟩,
    moveCount_eq_countOccupied _ ⟨[(1, 1), (0, 0)], by decide⟩⟩

/-! ## Mark counts and turn parity -/

theorem countOf_eq (b : Board) (p : Cell) :
    b.countOf p =
      (if b.r0.c0 = p then 1 else 0) + (if b.r0.c1 = p then 1 else 0) +
      (if b.r0.c2 = p then 1 else 0) + (if b.r1.c0 = p then 1 else 0) +
      (if b.r1.c1 = p then 1 else 0) + (if b.r1.c2 = p then 1 else 0) +
      (if b.r2.c0 = p then 1 else 0) + (if b.r2.c1 = p then 1 else 0) +
      (if b.r2.c2 = p then 1 else 0) := by
  simp only [Board.countOf, Board.cells, List.count_cons, List.count_nil, beq_iff_eq]
  push_cast
  ring

theorem countOf_set (b : Board) (r c : Fin BOARD_SIZE) (m p : Cell)
    (hcell : b.get r c = Empty) (hp : p ≠ Empty) :
    (b.set r c m).countOf p = b.countOf p + (if m = p then 1 else 0) := by
  obtain ⟨⟨a0, a1, a2⟩, ⟨b0, b1, b2⟩, ⟨c0, c1, c2⟩⟩ := b
  have hp' : ¬ (Empty = p) := fun h => hp h.symm
  rw [countOf_eq, countOf_eq]
  fin_cases r <;> fin_cases c <;>
    simp only [Board.get, BoardRow.get, Board.set, BoardRow.set] at hcell ⊢ <;>
    subst hcell <;>
    simp only [hp', if_false] <;>
    ring

/-- Effect of a successful move on the two mark counts. -/
theorem MakeMove_counts {g g' : Game} {row col : Int}
    (h : g.MakeMove row col = some (g', none)) :
    (g.CurrentPlayer = Player1 →
        g'.Board.countOf X = g.Board.countOf X + 1 ∧ g'.Board.countOf O = g.Board.countOf O) ∧
      (g.CurrentPlayer = Player2 →
        g'.Board.countOf O = g.Board.countOf O + 1 ∧ g'.Board.countOf X = g.Board.countOf X) := by
  obtain ⟨r, c, -, -, hcell, hboard, -, -⟩ := MakeMove_success h
  constructor
  · intro hp
    rw [hboard, hp]
    constructor
    · rw [countOf_set _ r c _ X hcell (by decide)]
      rfl
    · rw [countOf_set _ r c _ O hcell (by decide)]
      simp [Player.GetMark]
  · intro hp
    rw [hboard, hp]
    constructor
    · rw [countOf_set _ r c _ O hcell (by decide)]
      rfl
    · rw [countOf_set _ r c _ X hcell (by decide)]
      simp [Player.GetMark]

theorem TurnParity_NewGame : TurnParity NewGame := by
  intro _
  exact Or.inl ⟨rfl, by decide⟩

theorem TurnParity.of_move {g g' : Game} {row col : Int} (hpar : TurnParity g)
    (h : g.MakeMove row col = some (g', none)) : TurnParity g' := by
  intro hs'
  obtain ⟨hc1, hc2⟩ := MakeMove_counts h
  obtain ⟨r, c, -, -, -, -, -, hcase⟩ := MakeMove_success h
  rcases hcase with ⟨-, -, hs, -⟩ | ⟨-, -, hs, -⟩ | ⟨-, -, hs, -⟩ | ⟨-, -, hs, hc⟩
  · rw [hs] at hs'
    exact absurd hs' (by decide)
  · rw [hs] at hs'
    exact absurd hs' (by decide)
  · rw [hs] at hs'
    exact absurd hs' (by decide)
  · rcases hpar (hs.symm.trans hs') with ⟨hp, hcount⟩ | ⟨hp, hcount⟩
    · obtain ⟨hX, hO⟩ := hc1 hp
      refine Or.inr ⟨?_, ?_⟩
      · rw [hc, hp]
        decide
      · rw [hX, hO, hcount]
    · obtain ⟨hO, hX⟩ := hc2 hp
      refine Or.inl ⟨?_, ?_⟩
      · rw [hc, hp]
        decide
      · rw [hX, hO, hcount]

theorem playMoves_invariant {g g' : Game} (moves : List (Int × Int))
    (hg : Consistent g ∧ TurnParity g) (h : playMoves g moves = some g') :
    Consistent g' ∧ TurnParity g' := by
  induction moves generalizing g with
  | nil =>
    simp only [playMoves, Option.some.injEq] at h
    exact h ▸ hg
  | cons mv rest ih =>
    obtain ⟨row, col⟩ := mv
    simp only [playMoves] at h
    split at h
    · rename_i g1 hstep
      exact ih ⟨hg.1.step hstep, TurnParity.of_move hg.2 hstep⟩ h
    · simp at h

theorem Reachable.turnParity {g : Game} (h : Reachable g) : TurnParity g := by
  obtain ⟨moves, hmoves⟩ := h
  exact (playMoves_invariant moves ⟨Consistent_NewGame, TurnParity_NewGame⟩ hmoves).2

/-- After a move made on an unfinished game the marks are balanced. -/
theorem balance_step {g g' : Game} {row col : Int} (hpar : TurnParity g)
    (hs : g.State = InProgress) (h : g.MakeMove row col = some (g', none)) :
    0 ≤ g'.Board.countOf X - g'.Board.countOf O ∧
      g'.Board.countOf X - g'.Board.countOf O ≤ 1 := by
  obtain ⟨hc1, hc2⟩ := MakeMove_counts h
  rcases hpar hs with ⟨hp, hcount⟩ | ⟨hp, hcount⟩
  · obtain ⟨hX, hO⟩ := hc1 hp
    omega
  · obtain ⟨hO, hX⟩ := hc2 hp
    omega

theorem playInProgress_invariant {g g' : Game} (moves : List (Int × Int))
    (hg : Consistent g ∧ TurnParity g ∧
      (0 ≤ g.Board.countOf X - g.Board.countOf O ∧ g.Board.countOf X - g.Board.countOf O ≤ 1))
    (h : playInProgress g moves = some g') :
    Consistent g' ∧ TurnParity g' ∧
      (0 ≤ g'.Board.countOf X - g'.Board.countOf O ∧
        g'.Board.countOf X - g'.Board.countOf O ≤ 1) := by
  induction moves generalizing g with
  | nil =>
    simp only [playInProgress, Option.some.injEq] at h
    exact h ▸ hg
  | cons mv rest ih =>
    obtain ⟨row, col⟩ := mv
    simp only [playInProgress] at h
    split_ifs at h with hs
    split at h
    · rename_i g1 hstep
      exact ih ⟨hg.1.step hstep, TurnParity.of_move hg.2.1 hstep,
        balance_step hg.2.1 hs hstep⟩ h
    · simp at h

theorem playInProgress_playMoves {g g' : Game} (moves : List (Int × Int))
    (h : playInProgress g moves = some g') : playMoves g moves = some g' := by
  induction moves generalizing g with
  | nil => simpa only [playInProgress, playMoves] using h
  | cons mv rest ih =>
    obtain ⟨row, col⟩ := mv
    simp only [playInProgress] at h
    split_ifs at h with hs
    simp only [playMoves]
    split at h
    · exact ih h
    · simp at h

theorem IsFull_iff_get (b : Board) :
    b.IsFull = true ↔ ∀ r c : Fin BOARD_SIZE, b.get r c ≠ Empty := by
  constructor
  · intro h r c
    exact IsFull_get b r c h
  · intro h
    rw [IsFull_iff]
    exact ⟨⟨h 0 0, h 0 1, h 0 2⟩, ⟨h 1 0, h 1 1, h 1 2⟩, ⟨h 2 0, h 2 1, h 2 2⟩⟩

/-! ## Invariants of play and the win and draw predicates -/

/-- C11, refuted as stated: after the diagonal win of `X` the call
`MakeMove(1, 0)` still succeeds and places a fourth `X`, so a game obtained from
`NewGame()` by six successful `MakeMove` calls has four `X` cells and two `O`
cells. -/
theorem mark_balance_counterexample :
    playMoves NewGame [(0, 0), (0, 1), (1, 1), (0, 2), (2, 2), (1, 0)] =
        some (Game.mk ⟨⟨1, 2, 2⟩, ⟨1, 1, 0⟩, ⟨0, 0, 1⟩⟩ Player1 Player1Won 6) ∧
      (Game.mk ⟨⟨1, 2, 2⟩, ⟨1, 1, 0⟩, ⟨0, 0, 1⟩⟩ Player1 Player1Won 6).Board.countOf X = 4 ∧
      (Game.mk ⟨⟨1, 2, 2⟩, ⟨1, 1, 0⟩, ⟨0, 0, 1⟩⟩ Player1 Player1Won 6).Board.countOf O = 2 ∧
      ¬ ((Game.mk ⟨⟨1, 2, 2⟩, ⟨1, 1, 0⟩, ⟨0, 0, 1⟩⟩ Player1 Player1Won 6).Board.countOf X -
          (Game.mk ⟨⟨1, 2, 2⟩, ⟨1, 1, 0⟩, ⟨0, 0, 1⟩⟩ Player1 Player1Won 6).Board.countOf O
        ).natAbs ≤ 1 := by
  refine ⟨by decide, by decide, by decide, by decide⟩

/-- C11, amended: for every game obtained from `NewGame()` by successful
`MakeMove` calls, each made on a game whose `State` is `InProgress`, the number
of `X` cells and the number of `O` cells on `Board` differ by at most 1; the
`X` cells are never fewer. -/
theorem mark_balance_in_play (g : Game) (hreach : ReachableInPlay g) :
    (g.Board.countOf X - g.Board.countOf O).natAbs ≤ 1 ∧
      0 ≤ g.Board.countOf X - g.Board.countOf O := by
  obtain ⟨moves, hmoves⟩ := hreach
  have hinv := playInProgress_invariant moves
    ⟨Consistent_NewGame, TurnParity_NewGame, by decide, by decide⟩ hmoves
  obtain ⟨-, -, h0, h1⟩ := hinv
  constructor
  · omega
  · exact h0

/-- Witness for C11, amended: the game after the diagonal win of `X`. -/
theorem mark_balance_in_play_witness :
    ReachableInPlay (Game.mk ⟨⟨1, 2, 2⟩, ⟨0, 1, 0⟩, ⟨0, 0, 1⟩⟩ Player1 Player1Won 5) ∧
      (((Game.mk ⟨⟨1, 2, 2⟩, ⟨0, 1, 0⟩, ⟨0, 0, 1⟩⟩ Player1 Player1Won 5).Board.countOf X -
          (Game.mk ⟨⟨1, 2, 2⟩, ⟨0, 1, 0⟩, ⟨0, 0, 1⟩⟩ Player1 Player1Won 5).Board.countOf O
        ).natAbs ≤ 1 ∧
        0 ≤ (Game.mk ⟨⟨1, 2, 2⟩, ⟨0, 1, 0⟩, ⟨0, 0, 1⟩⟩ Player1 Player1Won 5).Board.countOf X -
          (Game.mk ⟨⟨1, 2, 2⟩, ⟨0, 1, 0⟩, ⟨0, 0, 1⟩⟩ Player1 Player1Won 5).Board.countOf O) :=
  ⟨⟨[(0, 0), (0, 1), (1, 1), (0, 2), (2, 2)], by decide⟩,
    mark_balance_in_play _ ⟨[(0, 0), (0, 1), (1, 1), (0, 2), (2, 2)], by decide⟩⟩

/-- C12: turn parity (P2, second part).  For every game obtained from
`NewGame()` by a sequence of successful `MakeMove` calls whose `State` is
`InProgress`, the number of `X` cells minus the number of `O` cells is 1 if and
only if `CurrentPlayer = Player2`, and is 0 if and only if
`CurrentPlayer = Player1`. -/
theorem turn_parity_in_progress (g : Game) (hreach : Reachable g) (hstate : g.State = InProgress) :
    (g.Board.countOf X - g.Board.countOf O = 1 ↔ g.CurrentPlayer = Player2) ∧
      (g.Board.countOf X - g.Board.countOf O = 0 ↔ g.CurrentPlayer = Player1) := by
  rcases hreach.turnParity hstate with ⟨hp, hcount⟩ | ⟨hp, hcount⟩
  · rw [hp, hcount]
    refine ⟨⟨fun h => ?_, fun h => absurd h (by decide)⟩, ⟨fun _ => rfl, fun _ => by omega⟩⟩
    omega
  · rw [hp, hcount]
    refine ⟨⟨fun _ => rfl, fun _ => by omega⟩, ⟨fun h => ?_, fun h => absurd h (by decide)⟩⟩
    omega

/-- Witness for C12: after the opening move `(1, 1)` it is the turn of
`Player2`. -/
theorem turn_parity_in_progress_witness :
    (Reachable (Game.mk ⟨⟨0, 0, 0⟩, ⟨0, 1, 0⟩, ⟨0, 0, 0⟩⟩ Player2 InProgress 1) ∧
      (Game.mk ⟨⟨0, 0, 0⟩, ⟨0, 1, 0⟩, ⟨0, 0, 0⟩⟩ Player2 InProgress 1).State = InProgress) ∧
      (((Game.mk ⟨⟨0, 0, 0⟩, ⟨0, 1, 0⟩, ⟨0, 0, 0⟩⟩ Player2 InProgress 1).Board.countOf X -
            (Game.mk ⟨⟨0, 0, 0⟩, ⟨0, 1, 0⟩, ⟨0, 0, 0⟩⟩ Player2 InProgress 1).Board.countOf O = 1 ↔
          (Game.mk ⟨⟨0, 0, 0⟩, ⟨0, 1, 0⟩, ⟨0, 0, 0⟩⟩ Player2 InProgress 1).CurrentPlayer =
            Player2) ∧
        ((Game.mk ⟨⟨0, 0, 0⟩, ⟨0, 1, 0⟩, ⟨0, 0, 0⟩⟩ Player2 InProgress 1).Board.countOf X -
            (Game.mk ⟨⟨0, 0, 0⟩, ⟨0, 1, 0⟩, ⟨0, 0, 0⟩⟩ Player2 InProgress 1).Board.countOf O = 0 ↔
          (Game.mk ⟨⟨0, 0, 0⟩, ⟨0, 1, 0⟩, ⟨0, 0, 0⟩⟩ Player2 InProgress 1).CurrentPlayer =
            Player1)) :=
  ⟨⟨⟨[(1, 1)], by decide⟩, by decide⟩,
    turn_parity_in_progress _ ⟨[(1, 1)], by decide⟩ (by decide)⟩

/-- C13: mutual exclusion (P5).  For every game obtained from `NewGame()` by a
sequence of successful `MakeMove` calls, `CheckWin(Board, X)` and
`CheckWin(Board, O)` are never both true. -/
theorem no_double_win (g : Game) (hreach : Reachable g) :
    ¬ (CheckWin g.Board X = true ∧ CheckWin g.Board O = true) := by
  have hg := hreach.consistent
  rintro ⟨hX, hO⟩
  rcases hg.state with hs | hs | hs | hs
  · rw [(hg.inProgress hs).1] at hX
    exact absurd hX (by decide)
  · rw [(hg.player1Won hs).2.1] at hO
    exact absurd hO (by decide)
  · rw [(hg.player2Won hs).2.1] at hX
    exact absurd hX (by decide)
  · rw [(hg.draw hs).2.1] at hX
    exact absurd hX (by decide)

/-- Witness for C13: the game after the diagonal win of `X`. -/
theorem no_double_win_witness :
    Reachable (Game.mk ⟨⟨1, 2, 2⟩, ⟨0, 1, 0⟩, ⟨0, 0, 1⟩⟩ Player1 Player1Won 5) ∧
      ¬ (CheckWin (Game.mk ⟨⟨1, 2, 2⟩, ⟨0, 1, 0⟩, ⟨0, 0, 1⟩⟩ Player1 Player1Won 5).Board X = true ∧
        CheckWin (Game.mk ⟨⟨1, 2, 2⟩, ⟨0, 1, 0⟩, ⟨0, 0, 1⟩⟩ Player1 Player1Won 5).Board O = true) :=
  ⟨⟨[(0, 0), (0, 1), (1, 1), (0, 2), (2, 2)], by decide⟩,
    no_double_win _ ⟨[(0, 0), (0, 1), (1, 1), (0, 2), (2, 2)], by decide⟩⟩

/-- C14: for every board `b` and every cell value `m`, in particular the marks
`X` and `O`, `CheckWin(b, m)` is true if and only if `m` occupies all three
cells of at least one of the eight lines: row 0, row 1, row 2, column 0,
column 1, column 2, the main diagonal `(0,0),(1,1),(2,2)` or the anti-diagonal
`(0,2),(1,1),(2,0)`. -/
theorem CheckWin_eight_lines (b : Board) (m : Cell) :
    CheckWin b m = true ↔
      (b.get 0 0 = m ∧ b.get 0 1 = m ∧ b.get 0 2 = m) ∨
      (b.get 1 0 = m ∧ b.get 1 1 = m ∧ b.get 1 2 = m) ∨
      (b.get 2 0 = m ∧ b.get 2 1 = m ∧ b.get 2 2 = m) ∨
      (b.get 0 0 = m ∧ b.get 1 0 = m ∧ b.get 2 0 = m) ∨
      (b.get 0 1 = m ∧ b.get 1 1 = m ∧ b.get 2 1 = m) ∨
      (b.get 0 2 = m ∧ b.get 1 2 = m ∧ b.get 2 2 = m) ∨
      (b.get 0 0 = m ∧ b.get 1 1 = m ∧ b.get 2 2 = m) ∨
      (b.get 0 2 = m ∧ b.get 1 1 = m ∧ b.get 2 0 = m) := by
  rw [CheckWin_iff]
  simp only [Board.get, BoardRow.get, or_assoc]

/-- C15: for every board `b`, `CheckDraw(b)` is true if and only if `b` has no
`Empty` cell and neither `CheckWin(b, X)` nor `CheckWin(b, O)` holds; so
`CheckDraw(b)` excludes a win for either mark. -/
theorem CheckDraw_full_no_win (b : Board) :
    (CheckDraw b = true ↔
        (∀ r c : Fin BOARD_SIZE, b.get r c ≠ Empty) ∧
          ¬ CheckWin b X = true ∧ ¬ CheckWin b O = true) ∧
      ¬ (CheckDraw b = true ∧ CheckWin b X = true) ∧
      ¬ (CheckDraw b = true ∧ CheckWin b O = true) := by
  have key : CheckDraw b = true ↔
      (∀ r c : Fin BOARD_SIZE, b.get r c ≠ Empty) ∧
        ¬ CheckWin b X = true ∧ ¬ CheckWin b O = true := by
    rw [CheckDraw_iff, IsFull_iff_get]
    simp only [Bool.not_eq_true]
  refine ⟨key, ?_, ?_⟩
  · rintro ⟨hd, hw⟩
    exact (key.1 hd).2.1 hw
  · rintro ⟨hd, hw⟩
    exact (key.1 hd).2.2 hw

/-! ## Room to move and the length of a game -/

theorem HasRoom_NewGame : HasRoom NewGame := by
  intro _
  decide

theorem HasRoom.of_step {g g' : Game} {row col : Int} (hg : Consistent g)
    (h : g.MakeMove row col = some (g', none)) : HasRoom g' := by
  intro hs'
  have hg' : Consistent g' := hg.step h
  obtain ⟨hX, hO⟩ := hg'.inProgress hs'
  obtain ⟨r, c, -, -, -, -, -, hcase⟩ := MakeMove_success h
  rcases hcase with ⟨-, -, hs, -⟩ | ⟨-, -, hs, -⟩ | ⟨-, -, hs, -⟩ | ⟨-, hd, -, -⟩
  · rw [hs] at hs'
    exact absurd hs' (by decide)
  · rw [hs] at hs'
    exact absurd hs' (by decide)
  · rw [hs] at hs'
    exact absurd hs' (by decide)
  · cases hfull : g'.Board.IsFull with
    | false => rfl
    | true =>
      rw [(CheckDraw_iff g'.Board).2 ⟨hfull, hX, hO⟩] at hd
      exact absurd hd (by decide)

theorem playMoves_hasRoom {g g' : Game} (moves : List (Int × Int))
    (hg : Consistent g ∧ HasRoom g) (h : playMoves g moves = some g') :
    Consistent g' ∧ HasRoom g' := by
  induction moves generalizing g with
  | nil =>
    simp only [playMoves, Option.some.injEq] at h
    exact h ▸ hg
  | cons mv rest ih =>
    obtain ⟨row, col⟩ := mv
    simp only [playMoves] at h
    split at h
    · rename_i g1 hstep
      exact ih ⟨hg.1.step hstep, HasRoom.of_step hg.1 hstep⟩ h
    · simp at h

theorem Reachable.hasRoom {g : Game} (h : Reachable g) : HasRoom g := by
  obtain ⟨moves, hmoves⟩ := h
  exact (playMoves_hasRoom moves ⟨Consistent_NewGame, HasRoom_NewGame⟩ hmoves).2

theorem playMoves_moveCount {g g' : Game} (moves : List (Int × Int)) (hg : Consistent g)
    (h : playMoves g moves = some g') : g'.MoveCount = g.MoveCount + (moves.length : Int) := by
  induction moves generalizing g with
  | nil =>
    simp only [playMoves, Option.some.injEq] at h
    subst h
    simp
  | cons mv rest ih =>
    obtain ⟨row, col⟩ := mv
    simp only [playMoves] at h
    split at h
    · rename_i g1 hstep
      have h1 := ih (hg.step hstep) h
      obtain ⟨r, c, -, -, -, -, hcount, -⟩ := MakeMove_success hstep
      have hb := CountOccupied_bounds g.Board
      have hc := hg.count
      rw [h1, hcount]
      simp only [List.length_cons, Nat.cast_add, Nat.cast_one]
      unfold wrapInt
      omega
    · simp at h

theorem not_IsFull_exists_empty (b : Board) (h : b.IsFull = false) :
    ∃ r c : Fin BOARD_SIZE, b.get r c = Empty := by
  by_contra hne
  have hall : ∀ r c : Fin BOARD_SIZE, b.get r c ≠ Empty := by
    intro r c hrc
    exact hne ⟨r, c, hrc⟩
  rw [(IsFull_iff_get b).2 hall] at h
  exact absurd h (by decide)

/-! ## Players, the initial game and the scenarios -/

/-- C22: `Other` swaps the two players and is an involution on them:
`Player1.Other() = Player2`, `Player2.Other() = Player1`, and for both players
`p`, `p.Other().Other() = p`, `p.Other() ≠ p` and the marks of `p` and
`p.Other()` differ. -/
theorem Other_involution :
    Player.Other Player1 = Player2 ∧ Player.Other Player2 = Player1 ∧
      ∀ p : Player, p = Player1 ∨ p = Player2 →
        p.Other.Other = p ∧ p.Other ≠ p ∧ p.Other.GetMark ≠ p.GetMark := by
  refine ⟨by decide, by decide, ?_⟩
  rintro p (rfl | rfl) <;> decide

/-- C23: `NewGame()` returns the initial game: each of the nine cells of
`Board` is `Empty`, `CurrentPlayer = Player1`, `State = InProgress` and
`MoveCount = 0`. -/
theorem NewGame_initial :
    (∀ r c : Fin BOARD_SIZE, NewGame.Board.get r c = Empty) ∧
      (∀ r c : Fin BOARD_SIZE,
        NewGame.Board.GetCell (r.val : Int) (c.val : Int) = some Empty) ∧
      NewGame.Board.CountOccupied = 0 ∧
      NewGame.CurrentPlayer = Player1 ∧ NewGame.State = InProgress ∧
      NewGame.MoveCount = 0 := by
  refine ⟨by decide, by decide, by decide, rfl, rfl, rfl⟩

/-- C24: scenario, diagonal `X` win.  Starting from `NewGame()`, the moves
`(0,0)`, `(0,1)`, `(1,1)`, `(0,2)`, `(2,2)` applied in order with `MakeMove` all
succeed, and the final game has `State = Player1Won`, `MoveCount = 5`,
`CurrentPlayer = Player1` and `CheckWin(Board, X)` true. -/
theorem scenario_diagonal_win :
    NewGame.MakeMove 0 0 =
        some (Game.mk ⟨⟨1, 0, 0⟩, ⟨0, 0, 0⟩, ⟨0, 0, 0⟩⟩ Player2 InProgress 1, none) ∧
      (Game.mk ⟨⟨1, 0, 0⟩, ⟨0, 0, 0⟩, ⟨0, 0, 0⟩⟩ Player2 InProgress 1).MakeMove 0 1 =
        some (Game.mk ⟨⟨1, 2, 0⟩, ⟨0, 0, 0⟩, ⟨0, 0, 0⟩⟩ Player1 InProgress 2, none) ∧
      (Game.mk ⟨⟨1, 2, 0⟩, ⟨0, 0, 0⟩, ⟨0, 0, 0⟩⟩ Player1 InProgress 2).MakeMove 1 1 =
        some (Game.mk ⟨⟨1, 2, 0⟩, ⟨0, 1, 0⟩, ⟨0, 0, 0⟩⟩ Player2 InProgress 3, none) ∧
      (Game.mk ⟨⟨1, 2, 0⟩, ⟨0, 1, 0⟩, ⟨0, 0, 0⟩⟩ Player2 InProgress 3).MakeMove 0 2 =
        some (Game.mk ⟨⟨1, 2, 2⟩, ⟨0, 1, 0⟩, ⟨0, 0, 0⟩⟩ Player1 InProgress 4, none) ∧
      (Game.mk ⟨⟨1, 2, 2⟩, ⟨0, 1, 0⟩, ⟨0, 0, 0⟩⟩ Player1 InProgress 4).MakeMove 2 2 =
        some (Game.mk ⟨⟨1, 2, 2⟩, ⟨0, 1, 0⟩, ⟨0, 0, 1⟩⟩ Player1 Player1Won 5, none) ∧
      playMoves NewGame [(0, 0), (0, 1), (1, 1), (0, 2), (2, 2)] =
        some (Game.mk ⟨⟨1, 2, 2⟩, ⟨0, 1, 0⟩, ⟨0, 0, 1⟩⟩ Player1 Player1Won 5) ∧
      (Game.mk ⟨⟨1, 2, 2⟩, ⟨0, 1, 0⟩, ⟨0, 0, 1⟩⟩ Player1 Player1Won 5).State = Player1Won ∧
      (Game.mk ⟨⟨1, 2, 2⟩, ⟨0, 1, 0⟩, ⟨0, 0, 1⟩⟩ Player1 Player1Won 5).MoveCount = 5 ∧
      (Game.mk ⟨⟨1, 2, 2⟩, ⟨0, 1, 0⟩, ⟨0, 0, 1⟩⟩ Player1 Player1Won 5).CurrentPlayer = Player1 ∧
      CheckWin (Game.mk ⟨⟨1, 2, 2⟩, ⟨0, 1, 0⟩, ⟨0, 0, 1⟩⟩ Player1 Player1Won 5).Board X = true := by
  refine ⟨by decide, by decide, by decide, by decide, by decide, by decide, rfl, rfl, rfl,
    by decide⟩

/-- C25: scenario, full-board draw.  Starting from `NewGame()`, the moves
`(0,0)`, `(0,1)`, `(0,2)`, `(1,1)`, `(1,0)`, `(1,2)`, `(2,1)`, `(2,0)`, `(2,2)`
applied in order with `MakeMove` all succeed, the game before each of them has
`State = InProgress`, and the final game has `State = Draw`, `MoveCount = 9`,
`CheckDraw(Board)` true and no winning line for `X` or for `O`. -/
theorem scenario_full_board_draw :
    playMoves NewGame
        [(0, 0), (0, 1), (0, 2), (1, 1), (1, 0), (1, 2), (2, 1), (2, 0), (2, 2)] =
        some (Game.mk ⟨⟨1, 2, 1⟩, ⟨1, 2, 2⟩, ⟨2, 1, 1⟩⟩ Player1 Draw 9) ∧
      (∀ k : Fin 9,
        (playMoves NewGame
          (([(0, 0), (0, 1), (0, 2), (1, 1), (1, 0), (1, 2), (2, 1), (2, 0), (2, 2)] :
            List (Int × Int)).take k.val)).map Game.State = some InProgress) ∧
      playInProgress NewGame
        [(0, 0), (0, 1), (0, 2), (1, 1), (1, 0), (1, 2), (2, 1), (2, 0), (2, 2)] =
        some (Game.mk ⟨⟨1, 2, 1⟩, ⟨1, 2, 2⟩, ⟨2, 1, 1⟩⟩ Player1 Draw 9) ∧
      (Game.mk ⟨⟨1, 2, 1⟩, ⟨1, 2, 2⟩, ⟨2, 1, 1⟩⟩ Player1 Draw 9).State = Draw ∧
      (Game.mk ⟨⟨1, 2, 1⟩, ⟨1, 2, 2⟩, ⟨2, 1, 1⟩⟩ Player1 Draw 9).MoveCount = 9 ∧
      CheckDraw (Game.mk ⟨⟨1, 2, 1⟩, ⟨1, 2, 2⟩, ⟨2, 1, 1⟩⟩ Player1 Draw 9).Board = true ∧
      CheckWin (Game.mk ⟨⟨1, 2, 1⟩, ⟨1, 2, 2⟩, ⟨2, 1, 1⟩⟩ Player1 Draw 9).Board X = false ∧
      CheckWin (Game.mk ⟨⟨1, 2, 1⟩, ⟨1, 2, 2⟩, ⟨2, 1, 1⟩⟩ Player1 Draw 9).Board O = false := by
  refine ⟨by decide, by decide, by decide, rfl, rfl, by decide, by decide, by decide⟩

/-- C26: the `SetCell`/`GetCell` law.  For every board `b`, all `(r, c)` and
`(r', c')` in the grid and every cell value `v`, `b.SetCell(r, c, v)` returns a
board whose `GetCell(r', c')` is `v` when `(r', c') = (r, c)` and is
`b.GetCell(r', c')` otherwise; `SetCell` works on a copy, so `b` keeps its
cells. -/
theorem SetCell_GetCell (b : Board) (r c r' c' : Int) (v : Cell)
    (hr : 0 ≤ r ∧ r ≤ 2) (hc : 0 ≤ c ∧ c ≤ 2) (hr' : 0 ≤ r' ∧ r' ≤ 2) (hc' : 0 ≤ c' ∧ c' ≤ 2) :
    ∃ (b' : Board) (old : Cell), b.SetCell r c v = some b' ∧ b.GetCell r' c' = some old ∧
      b'.GetCell r' c' = some (if r' = r ∧ c' = c then v else old) := by
  obtain ⟨i, hi⟩ := toIndex_inRange hr.1 hr.2
  obtain ⟨j, hj⟩ := toIndex_inRange hc.1 hc.2
  obtain ⟨i', hi'⟩ := toIndex_inRange hr'.1 hr'.2
  obtain ⟨j', hj'⟩ := toIndex_inRange hc'.1 hc'.2
  refine ⟨b.set i j v, b.get i' j', ?_, ?_, ?_⟩
  · simp only [Board.SetCell, hi, hj]
  · simp only [Board.GetCell, hi', hj']
  · simp only [Board.GetCell, hi', hj', get_set]
    have e1 := toIndex_eq_some hi
    have e2 := toIndex_eq_some hj
    have e3 := toIndex_eq_some hi'
    have e4 := toIndex_eq_some hj'
    have hiff : (i' = i ∧ j' = j) ↔ (r' = r ∧ c' = c) := by
      constructor
      · rintro ⟨rfl, rfl⟩
        exact ⟨e3.trans e1.symm, e4.trans e2.symm⟩
      · rintro ⟨h1, h2⟩
        constructor
        · apply Fin.ext
          have : (i'.val : Int) = (i.val : Int) := by rw [← e3, ← e1, h1]
          exact_mod_cast this
        · apply Fin.ext
          have : (j'.val : Int) = (j.val : Int) := by rw [← e4, ← e2, h2]
          exact_mod_cast this
    by_cases hcase : i' = i ∧ j' = j
    · rw [if_pos hcase, if_pos (hiff.1 hcase)]
    · rw [if_neg hcase, if_neg (fun h => hcase (hiff.2 h))]

/-- Witness for C26: writing `X` at `(1, 1)` of the empty board and reading
`(1, 1)`. -/
theorem SetCell_GetCell_witness :
    (((0 : Int) ≤ 1 ∧ (1 : Int) ≤ 2)) ∧
      ∃ (b' : Board) (old : Cell), NewBoard.SetCell 1 1 X = some b' ∧
        NewBoard.GetCell 1 1 = some old ∧
        b'.GetCell 1 1 = some (if (1 : Int) = 1 ∧ (1 : Int) = 1 then X else old) :=
  ⟨by decide,
    SetCell_GetCell NewBoard 1 1 1 1 X (by decide) (by decide) (by decide) (by decide)⟩

/-- C29: the state tag agrees with the board.  For every game obtained from
`NewGame()` by a sequence of successful `MakeMove` calls,
`State = Player1Won` iff `CheckWin(Board, X)`, `State = Player2Won` iff
`CheckWin(Board, O)` and `State = Draw` iff `CheckDraw(Board)`; and
`State = InProgress` iff neither mark has a line and the board has an `Empty`
cell, in which case some `MakeMove` call succeeds. -/
theorem state_agrees_with_board (g : Game) (hreach : Reachable g) :
    (g.State = Player1Won ↔ CheckWin g.Board X = true) ∧
      (g.State = Player2Won ↔ CheckWin g.Board O = true) ∧
      (g.State = Draw ↔ CheckDraw g.Board = true) ∧
      (g.State = InProgress ↔
        (CheckWin g.Board X = false ∧ CheckWin g.Board O = false ∧
          ∃ r c : Fin BOARD_SIZE, g.Board.get r c = Empty)) ∧
      (g.State = InProgress →
        ∃ (row col : Int) (g' : Game), g.MakeMove row col = some (g', none)) := by
  have hg := hreach.consistent
  have hroom := hreach.hasRoom
  have hfacts : (g.State = InProgress ∧ CheckWin g.Board X = false ∧
        CheckWin g.Board O = false ∧ g.Board.IsFull = false) ∨
      (g.State = Player1Won ∧ CheckWin g.Board X = true ∧ CheckWin g.Board O = false) ∨
      (g.State = Player2Won ∧ CheckWin g.Board O = true ∧ CheckWin g.Board X = false) ∨
      (g.State = Draw ∧ g.Board.IsFull = true ∧ CheckWin g.Board X = false ∧
        CheckWin g.Board O = false) := by
    rcases hg.state with hs | hs | hs | hs
    · exact Or.inl ⟨hs, (hg.inProgress hs).1, (hg.inProgress hs).2, hroom hs⟩
    · exact Or.inr (Or.inl ⟨hs, (hg.player1Won hs).1, (hg.player1Won hs).2.1⟩)
    · exact Or.inr (Or.inr (Or.inl ⟨hs, (hg.player2Won hs).1, (hg.player2Won hs).2.1⟩))
    · exact Or.inr (Or.inr (Or.inr ⟨hs, hg.draw hs⟩))
  have hprog : g.State = InProgress →
      ∃ (row col : Int) (g' : Game), g.MakeMove row col = some (g', none) := by
    intro hs
    obtain ⟨r, c, hcell⟩ := not_IsFull_exists_empty g.Board (hroom hs)
    have hmove := MakeMove_inRange g (toIndex_natCast r) (toIndex_natCast c)
    rw [if_pos hcell] at hmove
    split_ifs at hmove
    · exact ⟨_, _, _, hmove⟩
    · exact ⟨_, _, _, hmove⟩
    · exact ⟨_, _, _, hmove⟩
    · exact ⟨_, _, _, hmove⟩
  rcases hfacts with ⟨hs, hX, hO, hfull⟩ | ⟨hs, hX, hO⟩ | ⟨hs, hO, hX⟩ | ⟨hs, hfull, hX, hO⟩
  · have hd : CheckDraw g.Board = false := by
      cases h : CheckDraw g.Board with
      | false => rfl
      | true =>
        rw [((CheckDraw_iff g.Board).1 h).1] at hfull
        exact absurd hfull (by decide)
    rw [hs, hX, hO, hd]
    refine ⟨by decide, by decide, by decide, ?_, fun _ => hprog hs⟩
    exact ⟨fun _ => ⟨rfl, rfl, not_IsFull_exists_empty g.Board hfull⟩, fun _ => rfl⟩
  · have hd : CheckDraw g.Board = false := by
      cases h : CheckDraw g.Board with
      | false => rfl
      | true =>
        rw [((CheckDraw_iff g.Board).1 h).2.1] at hX
        exact absurd hX (by decide)
    rw [hs, hX, hO, hd]
    refine ⟨by decide, by decide, by decide, ?_, fun h => absurd h (by decide)⟩
    exact ⟨fun h => absurd h (by decide), fun h => absurd h.1 (by decide)⟩
  · have hd : CheckDraw g.Board = false := by
      cases h : CheckDraw g.Board with
      | false => rfl
      | true =>
        rw [((CheckDraw_iff g.Board).1 h).2.2] at hO
        exact absurd hO (by decide)
    rw [hs, hX, hO, hd]
    refine ⟨by decide, by decide, by decide, ?_, fun h => absurd h (by decide)⟩
    exact ⟨fun h => absurd h (by decide), fun h => absurd h.2.1 (by decide)⟩
  · have hd : CheckDraw g.Board = true := (CheckDraw_iff g.Board).2 ⟨hfull, hX, hO⟩
    rw [hs, hX, hO, hd]
    refine ⟨by decide, by decide, by decide, ?_, fun h => absurd h (by decide)⟩
    refine ⟨fun h => absurd h (by decide), ?_⟩
    rintro ⟨-, -, r, c, hcell⟩
    exact absurd hcell (IsFull_get g.Board r c hfull)

/-- Witness for C29: the game after the diagonal win of `X`. -/
theorem state_agrees_with_board_witness :
    Reachable (Game.mk ⟨⟨1, 2, 2⟩, ⟨0, 1, 0⟩, ⟨0, 0, 1⟩⟩ Player1 Player1Won 5) ∧
      ((Game.mk ⟨⟨1, 2, 2⟩, ⟨0, 1, 0⟩, ⟨0, 0, 1⟩⟩ Player1 Player1Won 5).State = Player1Won ↔
        CheckWin (Game.mk ⟨⟨1, 2, 2⟩, ⟨0, 1, 0⟩, ⟨0, 0, 1⟩⟩ Player1 Player1Won 5).Board X = true) :=
  ⟨⟨[(0, 0), (0, 1), (1, 1), (0, 2), (2, 2)], by decide⟩,
    (state_agrees_with_board _ ⟨[(0, 0), (0, 1), (1, 1), (0, 2), (2, 2)], by decide⟩).1⟩

/-- C30: bounded game length.  For every game obtained from `NewGame()` by a
sequence of successful `MakeMove` calls, `0 ≤ MoveCount ≤ 9`; every such
sequence has as many moves as the final `MoveCount`, so none is longer than 9;
and a game with `MoveCount = 9` has a `State` other than `InProgress`. -/
theorem game_length_bounded (g : Game) (hreach : Reachable g) :
    (0 ≤ g.MoveCount ∧ g.MoveCount ≤ 9) ∧
      (∀ moves : List (Int × Int), playMoves NewGame moves = some g →
        (moves.length : Int) = g.MoveCount ∧ moves.length ≤ 9) ∧
      (g.MoveCount = 9 → g.State ≠ InProgress) := by
  have hg := hreach.consistent
  have hb := CountOccupied_bounds g.Board
  have hc := hg.count
  refine ⟨⟨by omega, by omega⟩, ?_, ?_⟩
  · intro moves hmoves
    have hlen := playMoves_moveCount moves Consistent_NewGame hmoves
    have h0 : NewGame.MoveCount = 0 := rfl
    rw [h0] at hlen
    constructor
    · omega
    · omega
  · intro h9 hs
    have hfull : g.Board.IsFull = true := by
      rw [IsFull_iff_count, ← hc, h9]
    rw [hreach.hasRoom hs] at hfull
    exact absurd hfull (by decide)

/-- Witness for C30: the drawn game, reached by nine moves. -/
theorem game_length_bounded_witness :
    Reachable (Game.mk ⟨⟨1, 2, 1⟩, ⟨1, 2, 2⟩, ⟨2, 1, 1⟩⟩ Player1 Draw 9) ∧
      ((Game.mk ⟨⟨1, 2, 1⟩, ⟨1, 2, 2⟩, ⟨2, 1, 1⟩⟩ Player1 Draw 9).MoveCount = 9 →
        (Game.mk ⟨⟨1, 2, 1⟩, ⟨1, 2, 2⟩, ⟨2, 1, 1⟩⟩ Player1 Draw 9).State ≠ InProgress) :=
  ⟨⟨[(0, 0), (0, 1), (0, 2), (1, 1), (1, 0), (1, 2), (2, 1), (2, 0), (2, 2)], by decide⟩,
    (game_length_bounded _
      ⟨[(0, 0), (0, 1), (0, 2), (1, 1), (1, 0), (1, 2), (2, 1), (2, 0), (2, 2)],
        by decide⟩).2.2⟩

/-! ## The two fullness tests -/

theorem occupiedCells_eq (b : Board) :
    (b.occupiedCells : Int) =
      occupiedCount b.r0.c0 + occupiedCount b.r0.c1 + occupiedCount b.r0.c2 +
      occupiedCount b.r1.c0 + occupiedCount b.r1.c1 + occupiedCount b.r1.c2 +
      occupiedCount b.r2.c0 + occupiedCount b.r2.c1 + occupiedCount b.r2.c2 := by
  have hcell : ∀ c : Cell, (if c.IsOccupied = true then (1 : Int) else 0) = occupiedCount c := by
    intro c
    unfold Cell.IsOccupied occupiedCount
    by_cases hc : c = Empty <;> simp [hc]
  simp only [Board.occupiedCells, Board.cells, List.countP_cons, List.countP_nil]
  push_cast
  simp only [hcell]
  ring

theorem cells_eq_get (b : Board) :
    b.cells =
      [b.get 0 0, b.get 0 1, b.get 0 2, b.get 1 0, b.get 1 1, b.get 1 2,
        b.get 2 0, b.get 2 1, b.get 2 2] := rfl

/-- C31: the two fullness tests agree.  For every board `b`, `b.IsFull()` is
true if and only if `b.CountOccupied() = 9`; `b.CountOccupied()` lies between 0
and 9; and it equals the number of cells `c` of `b` with `c.IsOccupied()` true,
counted over the list of the nine cells or over the nine positions of the
grid. -/
theorem fullness_tests_agree (b : Board) :
    (b.IsFull = true ↔ b.CountOccupied = 9) ∧
      (0 ≤ b.CountOccupied ∧ b.CountOccupied ≤ 9) ∧
      b.CountOccupied = (b.occupiedCells : Int) ∧
      b.cells =
        [b.get 0 0, b.get 0 1, b.get 0 2, b.get 1 0, b.get 1 1, b.get 1 2,
          b.get 2 0, b.get 2 1, b.get 2 2] ∧
      b.CountOccupied =
        ((Finset.univ.filter fun q : Fin BOARD_SIZE × Fin BOARD_SIZE =>
          (b.get q.1 q.2).IsOccupied = true).card : Int) ∧
      (b.IsFull = true ↔ b.occupiedCells = 9) := by
  have hcount : b.CountOccupied = (b.occupiedCells : Int) := by
    rw [CountOccupied_eq, occupiedCells_eq]
  have hcard : b.CountOccupied =
      ((Finset.univ.filter fun q : Fin BOARD_SIZE × Fin BOARD_SIZE =>
        (b.get q.1 q.2).IsOccupied = true).card : Int) := by
    rw [CountOccupied_eq_card]
    simp only [Cell.IsOccupied, bne_iff_ne, ne_eq]
  refine ⟨IsFull_iff_count b, CountOccupied_bounds b, hcount, cells_eq_get b, hcard, ?_⟩
  rw [IsFull_iff_count, hcount]
  exact_mod_cast Iff.rfl

end game

namespace validation

/-! ### `strconv.Atoi` and signed decimal integers -/

theorem foldl_digits_ge (digits : List Char) (n : Nat) :
    n ≤ digits.foldl (fun n c => n * 10 + (c.toNat - 48)) n := by
  induction digits generalizing n with
  | nil => exact Nat.le_refl n
  | cons c cs ih =>
    simp only [List.foldl_cons]
    have := ih (n * 10 + (c.toNat - 48))
    omega

theorem parseUintLoop_eq_some (digits : List Char) (n v : Nat)
    (hn : n ≤ 18446744073709551615) :
    parseUintLoop n digits = some v ↔
      digits.all Char.isDigit = true ∧
        digits.foldl (fun n c => n * 10 + (c.toNat - 48)) n = v ∧
        v ≤ 18446744073709551615 := by
  induction digits generalizing n with
  | nil =>
    simp only [parseUintLoop, Option.some.injEq, List.all_nil, List.foldl_nil, true_and]
    constructor
    · intro h
      exact ⟨h, h ▸ hn⟩
    · intro h
      exact h.1
  | cons c cs ih =>
    simp only [parseUintLoop, List.all_cons, List.foldl_cons, Bool.and_eq_true]
    have hge := foldl_digits_ge cs (n * 10 + (c.toNat - 48))
    by_cases hd : c.isDigit = true
    · simp only [hd, if_true, true_and]
      by_cases h1 : n ≥ 1844674407370955162
      · simp only [h1, if_true]
        constructor
        · intro h
          exact absurd h (by simp)
        · rintro ⟨-, hv, hle⟩
          omega
      · simp only [h1, if_false]
        by_cases h2 : n * 10 + (c.toNat - 48) > 18446744073709551615
        · simp only [h2, if_true]
          constructor
          · intro h
            exact absurd h (by simp)
          · rintro ⟨-, hv, hle⟩
            omega
        · simp only [h2, if_false]
          exact ih (n * 10 + (c.toNat - 48)) (by omega)
    · simp only [hd, if_false]
      constructor
      · intro h
        exact absurd h (by simp)
      · rintro ⟨⟨h, -⟩, -⟩
        exact absurd h (by simp)

theorem ParseUint_eq_some (digits : List Char) (v : Nat) :
    ParseUint digits = some v ↔
      digits ≠ [] ∧ digits.all Char.isDigit = true ∧ digitsValue digits = v ∧
        v ≤ 18446744073709551615 := by
  unfold ParseUint digitsValue
  cases digits with
  | nil => simp
  | cons c cs =>
    simp only [List.isEmpty_cons, Bool.false_eq_true, if_false, ne_eq, not_false_eq_true,
      true_and, reduceCtorEq]
    exact parseUintLoop_eq_some (c :: cs) 0 v (by omega)

theorem signedResult_eq_some (neg : Bool) (un : Nat) (v : Int) :
    signedResult neg un = some v ↔
      (if neg then -(un : Int) else (un : Int)) = v ∧
        -9223372036854775808 ≤ v ∧ v ≤ 9223372036854775807 := by
  unfold signedResult
  cases neg
  · simp only [Bool.not_false, Bool.true_and, Bool.false_and, Bool.false_eq_true, if_false,
      decide_eq_true_eq]
    split_ifs with h
    · constructor
      · intro h0
        exact absurd h0 (by simp)
      · rintro ⟨rfl, -, hhi⟩
        omega
    · simp only [Option.some.injEq]
      constructor
      · rintro rfl
        exact ⟨rfl, by omega, by omega⟩
      · rintro ⟨h0, -, -⟩
        exact h0
  · simp only [Bool.not_true, Bool.true_and, Bool.false_and, Bool.false_eq_true, if_false,
      if_true, decide_eq_true_eq]
    split_ifs with h
    · constructor
      · intro h0
        exact absurd h0 (by simp)
      · rintro ⟨rfl, hlo, -⟩
        omega
    · simp only [Option.some.injEq]
      constructor
      · rintro rfl
        exact ⟨rfl, by omega, by omega⟩
      · rintro ⟨h0, -, -⟩
        exact h0

/-- Sign, digits and range: when the digits after the sign are read by
`ParseUint` and the result is checked by `signedResult`. -/
theorem bind_signedResult_eq_some (neg : Bool) (digits : List Char) (v : Int) :
    (ParseUint digits).bind (signedResult neg) = some v ↔
      (digits ≠ [] ∧ digits.all Char.isDigit = true) ∧
        (if neg then -(digitsValue digits : Int) else (digitsValue digits : Int)) = v ∧
        -9223372036854775808 ≤ v ∧ v ≤ 9223372036854775807 := by
  constructor
  · intro h
    obtain ⟨un, hun, hres⟩ := Option.bind_eq_some.1 h
    obtain ⟨hne, hall, hval, -⟩ := (ParseUint_eq_some digits un).1 hun
    rw [signedResult_eq_some] at hres
    rw [hval]
    exact ⟨⟨hne, hall⟩, hres⟩
  · rintro ⟨⟨hne, hall⟩, hval, hlo, hhi⟩
    have hun : ParseUint digits = some (digitsValue digits) := by
      rw [ParseUint_eq_some]
      refine ⟨hne, hall, rfl, ?_⟩
      cases neg
      · simp only [Bool.false_eq_true, if_false] at hval
        omega
      · simp only [if_true] at hval
        omega
    rw [hun, Option.some_bind, signedResult_eq_some]
    exact ⟨hval, hlo, hhi⟩

/-- The model of `strconv.Atoi` returns `v` exactly on the signed decimal
integers whose value `v` fits an `int`. -/
theorem Atoi_eq_some (t : String) (v : Int) :
    Atoi t = some v ↔
      isSignedDecimal t = true ∧ signedValue t = v ∧
        -9223372036854775808 ≤ v ∧ v ≤ 9223372036854775807 := by
  unfold Atoi ParseInt isSignedDecimal signedValue
  cases hdata : t.data with
  | nil => simp
  | cons c cs =>
    simp only
    rw [bind_signedResult_eq_some]
    by_cases hminus : c = '-'
    · subst hminus
      simp only [or_true, if_true, decide_True, Bool.and_eq_true, Bool.not_eq_true',
        List.isEmpty_eq_false, and_assoc]
    · have hneg : decide (c = '-') = false := by simpa using hminus
      by_cases hplus : c = '+'
      · subst hplus
        simp only [true_or, if_true, hneg, Bool.false_eq_true, if_false, Bool.and_eq_true,
          Bool.not_eq_true', List.isEmpty_eq_false, hminus, and_assoc, decide_False]
      · simp only [hplus, hminus, or_self, if_false, hneg, Bool.false_eq_true, ne_eq,
          reduceCtorEq, not_false_eq_true, true_and, and_assoc, decide_False]

/-! ### `strings.Fields` and `strings.TrimSpace` -/

theorem fieldsFrom_token (s cur : List Char) (hcur : ∀ c ∈ cur, isSpace c = false) :
    ∀ t ∈ fieldsFrom cur s, t ≠ [] ∧ ∀ c ∈ t, isSpace c = false := by
  induction s generalizing cur with
  | nil =>
    intro t ht
    unfold fieldsFrom at ht
    cases cur with
    | nil => simp at ht
    | cons a as =>
      simp only [List.isEmpty_cons, Bool.false_eq_true, if_false, List.mem_singleton] at ht
      subst ht
      refine ⟨by simp, fun c hc => hcur c (List.mem_reverse.1 hc)⟩
  | cons c cs ih =>
    intro t ht
    unfold fieldsFrom at ht
    by_cases hsp : isSpace c = true
    · simp only [hsp, if_true] at ht
      cases cur with
      | nil =>
        simp only [List.isEmpty_nil, if_true] at ht
        exact ih [] (by simp) t ht
      | cons a as =>
        simp only [List.isEmpty_cons, Bool.false_eq_true, if_false, List.mem_cons] at ht
        rcases ht with rfl | ht
        · refine ⟨by simp, fun c hc => hcur c (List.mem_reverse.1 hc)⟩
        · exact ih [] (by simp) t ht
    · simp only [hsp, if_false] at ht
      refine ih (c :: cur) ?_ t ht
      intro d hd
      rcases List.mem_cons.1 hd with rfl | hd
      · simpa using hsp
      · exact hcur d hd

/-- Every field is non-empty and holds no space. -/
theorem Fields_token {s t : String} (ht : t ∈ Fields s) :
    t.data ≠ [] ∧ ∀ c ∈ t.data, isSpace c = false := by
  unfold Fields at ht
  obtain ⟨l, hl, rfl⟩ := List.mem_map.1 ht
  exact fieldsFrom_token s.data [] (by simp) l hl

theorem dropWhile_isSpace_eq_self (l : List Char) (h : ∀ c ∈ l, isSpace c = false) :
    l.dropWhile isSpace = l := by
  cases l with
  | nil => rfl
  | cons a as =>
    have ha : isSpace a = false := h a (List.mem_cons_self a as)
    simp only [List.dropWhile, ha]

theorem TrimSpace_token {t : String} (h : ∀ c ∈ t.data, isSpace c = false) :
    TrimSpace t = t := by
  unfold TrimSpace
  rw [dropWhile_isSpace_eq_self t.data h,
    dropWhile_isSpace_eq_self t.data.reverse (fun c hc => h c (List.mem_reverse.1 hc)),
    List.reverse_reverse]

/-! ### The pipeline on the fields of the input -/

/-- On a field of the input, `ValidateNumeric` is `Atoi` with its error
wrapped. -/
theorem ValidateNumeric_field {s t : String} (ht : t ∈ Fields s) :
    ValidateNumeric t =
      match Atoi t with
      | none =>
        (0, some (GoError.errorf "%w: %q is not a valid number" ErrInvalidFormat
          (Operand.str t)))
      | some num => (num, none) := by
  obtain ⟨hne, hsp⟩ := Fields_token ht
  have hempty : t ≠ "" := by
    intro h
    rw [h] at hne
    exact hne rfl
  unfold ValidateNumeric
  simp only [TrimSpace_token hsp, hempty, if_false]

theorem ParseAndValidateInput_short {s : String} (h : (Fields s).length < 2) :
    ParseAndValidateInput s = (0, 0, some ErrIncompleteInput) := by
  unfold ParseAndValidateInput ValidateInputFormat
  match hf : Fields s with
  | [] => rfl
  | [_] => rfl
  | _ :: _ :: _ =>
    rw [hf] at h
    simp only [List.length_cons] at h
    omega

theorem ParseAndValidateInput_long {s : String} (h : 2 < (Fields s).length) :
    ParseAndValidateInput s =
      (0, 0, some (GoError.errorf "%w: expected 2 numbers, got %d" ErrInvalidFormat
        (Operand.int ((Fields s).length : Nat)))) := by
  unfold ParseAndValidateInput ValidateInputFormat
  match hf : Fields s with
  | [] =>
    rw [hf] at h
    simp at h
  | [_] =>
    rw [hf] at h
    simp at h
  | [_, _] =>
    rw [hf] at h
    simp at h
  | _ :: _ :: _ :: _ => rfl

/-- The result of the pipeline on an input with exactly two fields. -/
theorem ParseAndValidateInput_two {s t0 t1 : String} (h : Fields s = [t0, t1]) :
    ParseAndValidateInput s =
      match Atoi t0, Atoi t1 with
      | none, _ =>
        (0, 0, some (GoError.errorf "%w: %q is not a valid number" ErrInvalidFormat
          (Operand.str t0)))
      | some _, none =>
        (0, 0, some (GoError.errorf "%w: %q is not a valid number" ErrInvalidFormat
          (Operand.str t1)))
      | some row, some col =>
        if 0 ≤ row ∧ row ≤ 2 ∧ 0 ≤ col ∧ col ≤ 2 then (row, col, none)
        else (0, 0, some ErrInvalidRange) := by
  have h0 : t0 ∈ Fields s := by simp [h]
  have h1 : t1 ∈ Fields s := by simp [h]
  unfold ParseAndValidateInput ValidateInputFormat
  simp only [h, ValidateNumeric_field h0, ValidateNumeric_field h1]
  cases hA0 : Atoi t0 with
  | none => rfl
  | some row =>
    cases hA1 : Atoi t1 with
    | none => rfl
    | some col =>
      simp only [ValidateRange, MinCoordinate, MaxCoordinate]
      by_cases hr : row < 0 ∨ row > 2
      · have hneg : ¬ (0 ≤ row ∧ row ≤ 2 ∧ 0 ≤ col ∧ col ≤ 2) := by omega
        simp only [hr, if_true, hneg, if_false]
      · by_cases hc : col < 0 ∨ col > 2
        · have hneg : ¬ (0 ≤ row ∧ row ≤ 2 ∧ 0 ≤ col ∧ col ≤ 2) := by omega
          simp only [hr, hc, if_true, if_false, hneg]
        · have hpos : 0 ≤ row ∧ row ≤ 2 ∧ 0 ≤ col ∧ col ≤ 2 := by omega
          simp only [hr, hc, if_false, hpos, and_self, if_true]

theorem Is_wrapped_format (format : String) (arg : Operand) :
    (GoError.errorf format ErrInvalidFormat arg).Is ErrInvalidFormat = true ∧
      (GoError.errorf format ErrInvalidFormat arg).Is ErrIncompleteInput = false ∧
      (GoError.errorf format ErrInvalidFormat arg).Is ErrInvalidRange = false ∧
      GoError.errorf format ErrInvalidFormat arg ≠ ErrInvalidFormat := by
  refine ⟨?_, ?_, ?_, ?_⟩
  · simp [GoError.Is, ErrInvalidFormat]
  · simp [GoError.Is, ErrInvalidFormat, ErrIncompleteInput]
  · simp [GoError.Is, ErrInvalidFormat, ErrInvalidRange]
  · simp [ErrInvalidFormat]

/-- The five outcomes of the pipeline, by the number of fields and the
results of `Atoi` on them. -/
theorem ParseAndValidateInput_cases (s : String) :
    ((Fields s).length < 2 ∧ ParseAndValidateInput s = (0, 0, some ErrIncompleteInput)) ∨
    (2 < (Fields s).length ∧ ∃ format arg,
      ParseAndValidateInput s = (0, 0, some (GoError.errorf format ErrInvalidFormat arg))) ∨
    (∃ t0 t1, Fields s = [t0, t1] ∧
      (((Atoi t0 = none ∨ Atoi t1 = none) ∧ ∃ format arg,
          ParseAndValidateInput s = (0, 0, some (GoError.errorf format ErrInvalidFormat arg))) ∨
        (∃ row col, Atoi t0 = some row ∧ Atoi t1 = some col ∧
          ¬ (0 ≤ row ∧ row ≤ 2 ∧ 0 ≤ col ∧ col ≤ 2) ∧
          ParseAndValidateInput s = (0, 0, some ErrInvalidRange)) ∨
        (∃ row col, Atoi t0 = some row ∧ Atoi t1 = some col ∧
          (0 ≤ row ∧ row ≤ 2 ∧ 0 ≤ col ∧ col ≤ 2) ∧
          ParseAndValidateInput s = (row, col, none)))) := by
  match hf : Fields s with
  | [] => exact Or.inl ⟨by simp, ParseAndValidateInput_short (by simp [hf])⟩
  | [_] => exact Or.inl ⟨by simp, ParseAndValidateInput_short (by simp [hf])⟩
  | _ :: _ :: _ :: _ =>
    exact Or.inr (Or.inl ⟨by simp, _, _, ParseAndValidateInput_long (by simp [hf])⟩)
  | [t0, t1] =>
    refine Or.inr (Or.inr ⟨t0, t1, rfl, ?_⟩)
    have h2 := ParseAndValidateInput_two hf
    cases hA0 : Atoi t0 with
    | none =>
      rw [hA0] at h2
      exact Or.inl ⟨Or.inl rfl, _, _, h2⟩
    | some row =>
      cases hA1 : Atoi t1 with
      | none =>
        rw [hA0, hA1] at h2
        exact Or.inl ⟨Or.inr rfl, _, _, h2⟩
      | some col =>
        rw [hA0, hA1] at h2
        by_cases hr : 0 ≤ row ∧ row ≤ 2 ∧ 0 ≤ col ∧ col ≤ 2
        · simp only [hr, and_self, if_true] at h2
          exact Or.inr (Or.inr ⟨row, col, rfl, rfl, hr, h2⟩)
        · simp only [hr, if_false] at h2
          exact Or.inr (Or.inl ⟨row, col, rfl, rfl, hr, h2⟩)

/-! ### The validator -/

/-- C16: validator totality (P6).  For every input string `s`,
`ParseAndValidateInput(s)` returns either no error together with a row and a
column that both lie in `{0,1,2}`, or zero coordinates with an error that
`errors.Is` identifies as exactly one of `ErrIncompleteInput`,
`ErrInvalidFormat`, `ErrInvalidRange`; the error is one of the two bare
sentinels `ErrIncompleteInput`, `ErrInvalidRange` or `ErrInvalidFormat` wrapped
with context, never anything else. -/
theorem ParseAndValidateInput_result_kinds (s : String) :
    ∃ (row col : Int) (e : Option GoError), ParseAndValidateInput s = (row, col, e) ∧
      ((e = none ∧ 0 ≤ row ∧ row ≤ 2 ∧ 0 ≤ col ∧ col ≤ 2) ∨
        (∃ err : GoError, e = some err ∧ row = 0 ∧ col = 0 ∧
          (err = ErrIncompleteInput ∨ err = ErrInvalidRange ∨
            ∃ format arg, err = GoError.errorf format ErrInvalidFormat arg) ∧
          ((err.Is ErrIncompleteInput = true ∧ err.Is ErrInvalidFormat = false ∧
              err.Is ErrInvalidRange = false) ∨
            (err.Is ErrIncompleteInput = false ∧ err.Is ErrInvalidFormat = true ∧
              err.Is ErrInvalidRange = false) ∨
            (err.Is ErrIncompleteInput = false ∧ err.Is ErrInvalidFormat = false ∧
              err.Is ErrInvalidRange = true)))) := by
  have hwrap : ∀ format arg,
      ∃ err : GoError, some (GoError.errorf format ErrInvalidFormat arg) = some err ∧
        (0 : Int) = 0 ∧ (0 : Int) = 0 ∧
        (err = ErrIncompleteInput ∨ err = ErrInvalidRange ∨
          ∃ format arg, err = GoError.errorf format ErrInvalidFormat arg) ∧
        ((err.Is ErrIncompleteInput = true ∧ err.Is ErrInvalidFormat = false ∧
            err.Is ErrInvalidRange = false) ∨
          (err.Is ErrIncompleteInput = false ∧ err.Is ErrInvalidFormat = true ∧
            err.Is ErrInvalidRange = false) ∨
          (err.Is ErrIncompleteInput = false ∧ err.Is ErrInvalidFormat = false ∧
            err.Is ErrInvalidRange = true)) := by
    intro format arg
    obtain ⟨h1, h2, h3, -⟩ := Is_wrapped_format format arg
    exact ⟨_, rfl, rfl, rfl, Or.inr (Or.inr ⟨format, arg, rfl⟩), Or.inr (Or.inl ⟨h2, h1, h3⟩)⟩
  rcases ParseAndValidateInput_cases s with ⟨-, h⟩ | ⟨-, format, arg, h⟩ |
    ⟨t0, t1, -, ⟨-, format, arg, h⟩ | ⟨row, col, -, -, -, h⟩ | ⟨row, col, -, -, hr, h⟩⟩
  · exact ⟨0, 0, _, h, Or.inr ⟨ErrIncompleteInput, rfl, rfl, rfl, Or.inl rfl,
      Or.inl ⟨by decide, by decide, by decide⟩⟩⟩
  · exact ⟨0, 0, _, h, Or.inr (hwrap format arg)⟩
  · exact ⟨0, 0, _, h, Or.inr (hwrap format arg)⟩
  · exact ⟨0, 0, _, h, Or.inr ⟨ErrInvalidRange, rfl, rfl, rfl, Or.inr (Or.inl rfl),
      Or.inr (Or.inr ⟨by decide, by decide, by decide⟩)⟩⟩
  · exact ⟨row, col, none, h, Or.inl ⟨rfl, hr⟩⟩

/-- C17: for every input string `s`, `ParseAndValidateInput(s)` returns
`ErrIncompleteInput` if and only if `s` has fewer than two whitespace-separated
tokens, whatever the single token is; the same holds with the error
identified by `errors.Is`. -/
theorem incomplete_input_iff (s : String) :
    ((ParseAndValidateInput s).2.2 = some ErrIncompleteInput ↔ (Fields s).length < 2) ∧
      ((∃ err, (ParseAndValidateInput s).2.2 = some err ∧ err.Is ErrIncompleteInput = true) ↔
        (Fields s).length < 2) := by
  have hnot : ∀ format arg,
      GoError.errorf format ErrInvalidFormat arg ≠ ErrIncompleteInput := by
    intro format arg h
    simp [ErrIncompleteInput] at h
  rcases ParseAndValidateInput_cases s with ⟨hlen, h⟩ | ⟨hlen, format, arg, h⟩ |
    ⟨t0, t1, hf, ⟨-, format, arg, h⟩ | ⟨row, col, -, -, -, h⟩ | ⟨row, col, -, -, -, h⟩⟩
  · rw [h]
    exact ⟨⟨fun _ => hlen, fun _ => rfl⟩, ⟨fun _ => hlen, fun _ => ⟨_, rfl, by decide⟩⟩⟩
  · rw [h]
    constructor
    · constructor
      · intro h0
        simp only [Option.some.injEq] at h0
        exact absurd h0 (hnot format arg)
      · intro h0
        omega
    · constructor
      · rintro ⟨err, h0, h1⟩
        simp only [Option.some.injEq] at h0
        subst h0
        rw [(Is_wrapped_format format arg).2.1] at h1
        exact absurd h1 (by decide)
      · intro h0
        omega
  · rw [h, hf]
    constructor
    · constructor
      · intro h0
        simp only [Option.some.injEq] at h0
        exact absurd h0 (hnot format arg)
      · intro h0
        simp at h0
    · constructor
      · rintro ⟨err, h0, h1⟩
        simp only [Option.some.injEq] at h0
        subst h0
        rw [(Is_wrapped_format format arg).2.1] at h1
        exact absurd h1 (by decide)
      · intro h0
        simp at h0
  · rw [h, hf]
    constructor
    · constructor
      · intro h0
        exact absurd h0 (by decide)
      · intro h0
        simp at h0
    · constructor
      · rintro ⟨err, h0, h1⟩
        simp only [Option.some.injEq] at h0
        subst h0
        exact absurd h1 (by decide)
      · intro h0
        simp at h0
  · rw [h, hf]
    constructor
    · constructor
      · intro h0
        exact absurd h0 (by simp)
      · intro h0
        simp at h0
    · constructor
      · rintro ⟨err, h0, -⟩
        exact absurd h0 (by simp)
      · intro h0
        simp at h0

/-- C18: for every input string `s` that has more than two whitespace-separated
tokens, or exactly two tokens at least one of which is not a signed decimal
integer, `ParseAndValidateInput(s)` returns an error that `errors.Is` identifies
as `ErrInvalidFormat` and as no other kind, although it is not the bare
sentinel but a wrapped error. -/
theorem invalid_format_of_tokens (s : String)
    (h : 2 < (Fields s).length ∨
      ∃ t0 t1, Fields s = [t0, t1] ∧ (isSignedDecimal t0 = false ∨ isSignedDecimal t1 = false)) :
    ∃ err : GoError, ParseAndValidateInput s = (0, 0, some err) ∧
      err.Is ErrInvalidFormat = true ∧ err ≠ ErrInvalidFormat ∧
      (∃ format arg, err = GoError.errorf format ErrInvalidFormat arg) ∧
      err.Is ErrIncompleteInput = false ∧ err.Is ErrInvalidRange = false := by
  have hwrap : ∀ format arg,
      ParseAndValidateInput s = (0, 0, some (GoError.errorf format ErrInvalidFormat arg)) →
      ∃ err : GoError, ParseAndValidateInput s = (0, 0, some err) ∧
        err.Is ErrInvalidFormat = true ∧ err ≠ ErrInvalidFormat ∧
        (∃ format arg, err = GoError.errorf format ErrInvalidFormat arg) ∧
        err.Is ErrIncompleteInput = false ∧ err.Is ErrInvalidRange = false := by
    intro format arg hres
    obtain ⟨h1, h2, h3, h4⟩ := Is_wrapped_format format arg
    exact ⟨_, hres, h1, h4, ⟨format, arg, rfl⟩, h2, h3⟩
  have hnotAtoi : ∀ t : String, isSignedDecimal t = false → Atoi t = none := by
    intro t ht
    cases hA : Atoi t with
    | none => rfl
    | some v =>
      rw [((Atoi_eq_some t v).1 hA).1] at ht
      exact absurd ht (by decide)
  rcases h with hlen | ⟨t0, t1, hf, hbad⟩
  · exact hwrap _ _ (ParseAndValidateInput_long hlen)
  · have h2 := ParseAndValidateInput_two hf
    rcases hbad with hbad | hbad
    · rw [hnotAtoi t0 hbad] at h2
      exact hwrap _ _ h2
    · rw [hnotAtoi t1 hbad] at h2
      cases hA0 : Atoi t0 with
      | none =>
        rw [hA0] at h2
        exact hwrap _ _ h2
      | some row =>
        rw [hA0] at h2
        exact hwrap _ _ h2

/-- Witness for C18: the input `5 a`, whose first token is an out-of-range
integer and whose second token is not an integer. -/
theorem invalid_format_of_tokens_witness :
    (2 < (Fields "5 a").length ∨
      ∃ t0 t1, Fields "5 a" = [t0, t1] ∧
        (isSignedDecimal t0 = false ∨ isSignedDecimal t1 = false)) ∧
      ∃ err : GoError, ParseAndValidateInput "5 a" = (0, 0, some err) ∧
        err.Is ErrInvalidFormat = true ∧ err ≠ ErrInvalidFormat ∧
        (∃ format arg, err = GoError.errorf format ErrInvalidFormat arg) ∧
        err.Is ErrIncompleteInput = false ∧ err.Is ErrInvalidRange = false :=
  ⟨Or.inr ⟨"5", "a", by decide, Or.inr (by decide)⟩,
    invalid_format_of_tokens "5 a" (Or.inr ⟨"5", "a", by decide, Or.inr (by decide)⟩)⟩

/-- C19, refuted as stated: the input `9223372036854775808 0` has exactly two
tokens, both signed decimal integers, and the first, `2^63`, lies outside
`{0,1,2}`; `Atoi` fails on it because it does not fit an `int`, and
`ParseAndValidateInput` returns a wrapped `ErrInvalidFormat`, not
`ErrInvalidRange`. -/
theorem invalid_range_counterexample :
    Fields "9223372036854775808 0" = ["9223372036854775808", "0"] ∧
      isSignedDecimal "9223372036854775808" = true ∧ isSignedDecimal "0" = true ∧
      signedValue "9223372036854775808" = 9223372036854775808 ∧
      ParseAndValidateInput "9223372036854775808 0" =
        (0, 0, some (GoError.errorf "%w: %q is not a valid number" ErrInvalidFormat
          (Operand.str "9223372036854775808"))) ∧
      (ParseAndValidateInput "9223372036854775808 0").2.2 ≠ some ErrInvalidRange := by
  refine ⟨by decide, by decide, by decide, by decide, by decide, by decide⟩

/-- C19, amended: for every input string `s` with exactly two
whitespace-separated tokens, each a signed decimal integer, at least one of
which lies outside `{0,1,2}`: if both integers fit an `int`, that is lie between
`-2^63` and `2^63 - 1`, then `ParseAndValidateInput(s)` returns
`ErrInvalidRange`; if one of them does not fit, it returns an error of kind
`ErrInvalidFormat`. -/
theorem invalid_range_of_int_tokens (s t0 t1 : String)
    (hf : Fields s = [t0, t1])
    (h0 : isSignedDecimal t0 = true) (h1 : isSignedDecimal t1 = true)
    (hout : ¬ (0 ≤ signedValue t0 ∧ signedValue t0 ≤ 2) ∨
      ¬ (0 ≤ signedValue t1 ∧ signedValue t1 ≤ 2)) :
    (((-9223372036854775808 ≤ signedValue t0 ∧ signedValue t0 ≤ 9223372036854775807) ∧
        (-9223372036854775808 ≤ signedValue t1 ∧ signedValue t1 ≤ 9223372036854775807)) →
      ParseAndValidateInput s = (0, 0, some ErrInvalidRange)) ∧
    (¬ ((-9223372036854775808 ≤ signedValue t0 ∧ signedValue t0 ≤ 9223372036854775807) ∧
        (-9223372036854775808 ≤ signedValue t1 ∧ signedValue t1 ≤ 9223372036854775807)) →
      ∃ err : GoError, ParseAndValidateInput s = (0, 0, some err) ∧
        err.Is ErrInvalidFormat = true ∧ err.Is ErrInvalidRange = false) := by
  have h2 := ParseAndValidateInput_two hf
  have hfits : ∀ t : String, isSignedDecimal t = true →
      (-9223372036854775808 ≤ signedValue t ∧ signedValue t ≤ 9223372036854775807) →
      Atoi t = some (signedValue t) := by
    intro t ht hfit
    exact (Atoi_eq_some t (signedValue t)).2 ⟨ht, rfl, hfit.1, hfit.2⟩
  have hnofit : ∀ t : String,
      ¬ (-9223372036854775808 ≤ signedValue t ∧ signedValue t ≤ 9223372036854775807) →
      Atoi t = none := by
    intro t hfit
    cases hA : Atoi t with
    | none => rfl
    | some v =>
      obtain ⟨-, hv, hlo, hhi⟩ := (Atoi_eq_some t v).1 hA
      rw [← hv] at hlo hhi
      exact absurd ⟨hlo, hhi⟩ hfit
  constructor
  · rintro ⟨hfit0, hfit1⟩
    rw [hfits t0 h0 hfit0, hfits t1 h1 hfit1] at h2
    have hneg : ¬ (0 ≤ signedValue t0 ∧ signedValue t0 ≤ 2 ∧
        0 ≤ signedValue t1 ∧ signedValue t1 ≤ 2) := by
      rintro ⟨a, b, c, d⟩
      rcases hout with h | h
      · exact h ⟨a, b⟩
      · exact h ⟨c, d⟩
    simpa only [hneg, if_false] using h2
  · intro hfit
    have hbad : Atoi t0 = none ∨ Atoi t1 = none := by
      by_cases hfit0 : -9223372036854775808 ≤ signedValue t0 ∧
          signedValue t0 ≤ 9223372036854775807
      · exact Or.inr (hnofit t1 (fun hfit1 => hfit ⟨hfit0, hfit1⟩))
      · exact Or.inl (hnofit t0 hfit0)
    rcases hbad with hbad | hbad
    · rw [hbad] at h2
      exact ⟨_, h2, (Is_wrapped_format _ _).1, (Is_wrapped_format _ _).2.2.1⟩
    · rw [hbad] at h2
      cases hA0 : Atoi t0 with
      | none =>
        rw [hA0] at h2
        exact ⟨_, h2, (Is_wrapped_format _ _).1, (Is_wrapped_format _ _).2.2.1⟩
      | some row =>
        rw [hA0] at h2
        exact ⟨_, h2, (Is_wrapped_format _ _).1, (Is_wrapped_format _ _).2.2.1⟩

/-- Witness for C19, amended: the input `-1 12`. -/
theorem invalid_range_of_int_tokens_witness :
    (Fields "-1 12" = ["-1", "12"] ∧ isSignedDecimal "-1" = true ∧
        isSignedDecimal "12" = true ∧
        (¬ (0 ≤ signedValue "-1" ∧ signedValue "-1" ≤ 2) ∨
          ¬ (0 ≤ signedValue "12" ∧ signedValue "12" ≤ 2))) ∧
      ((((-9223372036854775808 ≤ signedValue "-1" ∧
              signedValue "-1" ≤ 9223372036854775807) ∧
            (-9223372036854775808 ≤ signedValue "12" ∧
              signedValue "12" ≤ 9223372036854775807)) →
          ParseAndValidateInput "-1 12" = (0, 0, some ErrInvalidRange)) ∧
        (¬ ((-9223372036854775808 ≤ signedValue "-1" ∧
              signedValue "-1" ≤ 9223372036854775807) ∧
            (-9223372036854775808 ≤ signedValue "12" ∧
              signedValue "12" ≤ 9223372036854775807)) →
          ∃ err : GoError, ParseAndValidateInput "-1 12" = (0, 0, some err) ∧
            err.Is ErrInvalidFormat = true ∧ err.Is ErrInvalidRange = false)) :=
  ⟨⟨by decide, by decide, by decide, Or.inl (by decide)⟩,
    invalid_range_of_int_tokens "-1 12" "-1" "12" (by decide) (by decide) (by decide)
      (Or.inl (by decide))⟩

/-- C20: for every input string `s`, `ParseAndValidateInput(s)` returns no
error if and only if `s` has exactly two whitespace-separated tokens that are
both signed decimal integers with values in `{0,1,2}`; the returned row is then
the value of the first token and the returned column the value of the second.
In particular the input made of the digit `r`, one space and the digit `c`
returns `(r, c)` for all `r`, `c` in `{0,1,2}`. -/
theorem valid_input_iff (s : String) :
    ((ParseAndValidateInput s).2.2 = none ↔
        ∃ t0 t1, Fields s = [t0, t1] ∧
          isSignedDecimal t0 = true ∧ isSignedDecimal t1 = true ∧
          (0 ≤ signedValue t0 ∧ signedValue t0 ≤ 2) ∧
          (0 ≤ signedValue t1 ∧ signedValue t1 ≤ 2)) ∧
      (∀ t0 t1, Fields s = [t0, t1] →
        isSignedDecimal t0 = true → isSignedDecimal t1 = true →
        (0 ≤ signedValue t0 ∧ signedValue t0 ≤ 2) →
        (0 ≤ signedValue t1 ∧ signedValue t1 ≤ 2) →
        ParseAndValidateInput s = (signedValue t0, signedValue t1, none)) ∧
      (∀ r c : Fin 3,
        ParseAndValidateInput (String.mk [Char.ofNat (48 + r.val), ' ', Char.ofNat (48 + c.val)]) =
          ((r.val : Int), (c.val : Int), none)) := by
  have hvalid : ∀ t0 t1, Fields s = [t0, t1] →
      isSignedDecimal t0 = true → isSignedDecimal t1 = true →
      (0 ≤ signedValue t0 ∧ signedValue t0 ≤ 2) →
      (0 ≤ signedValue t1 ∧ signedValue t1 ≤ 2) →
      ParseAndValidateInput s = (signedValue t0, signedValue t1, none) := by
    intro t0 t1 hf h0 h1 hr hc
    have h2 := ParseAndValidateInput_two hf
    have hA0 : Atoi t0 = some (signedValue t0) :=
      (Atoi_eq_some t0 _).2 ⟨h0, rfl, by omega, by omega⟩
    have hA1 : Atoi t1 = some (signedValue t1) :=
      (Atoi_eq_some t1 _).2 ⟨h1, rfl, by omega, by omega⟩
    rw [hA0, hA1] at h2
    have hin : 0 ≤ signedValue t0 ∧ signedValue t0 ≤ 2 ∧
        0 ≤ signedValue t1 ∧ signedValue t1 ≤ 2 := ⟨hr.1, hr.2, hc.1, hc.2⟩
    simpa only [hin, and_self, if_true] using h2
  refine ⟨⟨?_, ?_⟩, hvalid, by decide⟩
  · intro hnone
    rcases ParseAndValidateInput_cases s with ⟨-, h⟩ | ⟨-, format, arg, h⟩ |
      ⟨t0, t1, hf, ⟨-, format, arg, h⟩ | ⟨row, col, -, -, -, h⟩ | ⟨row, col, hA0, hA1, hr, h⟩⟩
    · rw [h] at hnone
      exact absurd hnone (by simp)
    · rw [h] at hnone
      exact absurd hnone (by simp)
    · rw [h] at hnone
      exact absurd hnone (by simp)
    · rw [h] at hnone
      exact absurd hnone (by simp)
    · obtain ⟨hs0, hv0, -, -⟩ := (Atoi_eq_some t0 row).1 hA0
      obtain ⟨hs1, hv1, -, -⟩ := (Atoi_eq_some t1 col).1 hA1
      refine ⟨t0, t1, hf, hs0, hs1, ?_, ?_⟩
      · rw [hv0]
        exact ⟨hr.1, hr.2.1⟩
      · rw [hv1]
        exact ⟨hr.2.2.1, hr.2.2.2⟩
  · rintro ⟨t0, t1, hf, h0, h1, hr, hc⟩
    rw [hvalid t0 t1 hf h0 h1 hr hc]

/-! ### Whitespace around and between the fields -/

theorem fieldsFrom_append_space (a b cur : List Char) (sp : Char) (hsp : isSpace sp = true) :
    fieldsFrom cur (a ++ sp :: b) = fieldsFrom cur a ++ fieldsFrom [] b := by
  induction a generalizing cur with
  | nil =>
    simp only [List.nil_append, fieldsFrom, hsp, if_true]
    cases cur with
    | nil => simp
    | cons x xs => simp
  | cons c cs ih =>
    simp only [List.cons_append, fieldsFrom]
    by_cases hc : isSpace c = true
    · simp only [hc, if_true]
      cases cur with
      | nil =>
        simp only [List.isEmpty_nil, if_true]
        exact ih []
      | cons x xs =>
        simp only [List.isEmpty_cons, Bool.false_eq_true, if_false, List.cons_append]
        exact congrArg (List.cons (x :: xs).reverse) (ih [])
    · simp only [hc, if_false]
      exact ih (c :: cur)

theorem fieldsFrom_spaces (ws : List Char) (hws : ∀ c ∈ ws, isSpace c = true) :
    fieldsFrom [] ws = [] := by
  induction ws with
  | nil => rfl
  | cons c cs ih =>
    have hc : isSpace c = true := hws c (List.mem_cons_self c cs)
    simp only [fieldsFrom, hc, if_true, List.isEmpty_nil]
    exact ih (fun d hd => hws d (List.mem_cons_of_mem c hd))

theorem fieldsFrom_leading (ws b : List Char) (hws : ∀ c ∈ ws, isSpace c = true) :
    fieldsFrom [] (ws ++ b) = fieldsFrom [] b := by
  induction ws with
  | nil => rfl
  | cons c cs ih =>
    have hc : isSpace c = true := hws c (List.mem_cons_self c cs)
    simp only [List.cons_append, fieldsFrom, hc, if_true, List.isEmpty_nil]
    exact ih (fun d hd => hws d (List.mem_cons_of_mem c hd))

theorem fieldsFrom_trailing (a ws : List Char) (hws : ∀ c ∈ ws, isSpace c = true) :
    fieldsFrom [] (a ++ ws) = fieldsFrom [] a := by
  cases ws with
  | nil => simp
  | cons c cs =>
    have hc : isSpace c = true := hws c (List.mem_cons_self c cs)
    rw [fieldsFrom_append_space a cs [] c hc,
      fieldsFrom_spaces cs (fun d hd => hws d (List.mem_cons_of_mem c hd)), List.append_nil]

theorem fieldsFrom_separator (a sep b : List Char) (hsep : ∀ c ∈ sep, isSpace c = true)
    (hne : sep ≠ []) :
    fieldsFrom [] (a ++ sep ++ b) = fieldsFrom [] a ++ fieldsFrom [] b := by
  cases sep with
  | nil => exact absurd rfl hne
  | cons c cs =>
    have hc : isSpace c = true := hsep c (List.mem_cons_self c cs)
    rw [List.append_assoc, List.cons_append, fieldsFrom_append_space a (cs ++ b) [] c hc,
      fieldsFrom_leading cs b (fun d hd => hsep d (List.mem_cons_of_mem c hd))]

/-- The fields of two strings laid out with any leading and trailing spaces and
any non-empty run of spaces in the middle. -/
theorem Fields_layout (lead a sep b trail : List Char)
    (hlead : ∀ c ∈ lead, isSpace c = true) (hsep : ∀ c ∈ sep, isSpace c = true)
    (htrail : ∀ c ∈ trail, isSpace c = true) (hne : sep ≠ []) :
    Fields (String.mk (lead ++ a ++ sep ++ b ++ trail)) =
      (fieldsFrom [] a ++ fieldsFrom [] b).map String.mk := by
  unfold Fields
  have h1 : lead ++ a ++ sep ++ b ++ trail = lead ++ (a ++ sep ++ (b ++ trail)) := by
    simp only [List.append_assoc]
  rw [h1, fieldsFrom_leading lead _ hlead, fieldsFrom_separator a sep _ hsep hne,
    fieldsFrom_trailing b trail htrail]

theorem ParseAndValidateInput_congr {s1 s2 : String} (h : Fields s1 = Fields s2) :
    ParseAndValidateInput s1 = ParseAndValidateInput s2 := by
  simp only [ParseAndValidateInput, ValidateInputFormat, h]

/-- C21: whitespace insensitivity.  Two input strings with the same sequence
of whitespace-separated tokens get the same result from
`ParseAndValidateInput`: the same row, the same column and the same error.  So
for strings `a` and `b`, leading and trailing runs of spaces or tabs and the
length and composition of the non-empty run between `a` and `b` do not change
the fields nor the result. -/
theorem whitespace_insensitive :
    (∀ s1 s2 : String, Fields s1 = Fields s2 →
      ParseAndValidateInput s1 = ParseAndValidateInput s2) ∧
    (isSpace ' ' = true ∧ isSpace '\t' = true) ∧
    (∀ lead a sep b trail lead' sep' trail' : List Char,
      (∀ c ∈ lead ++ sep ++ trail ++ lead' ++ sep' ++ trail', isSpace c = true) →
      sep ≠ [] → sep' ≠ [] →
      Fields (String.mk (lead ++ a ++ sep ++ b ++ trail)) =
          Fields (String.mk (lead' ++ a ++ sep' ++ b ++ trail')) ∧
        ParseAndValidateInput (String.mk (lead ++ a ++ sep ++ b ++ trail)) =
          ParseAndValidateInput (String.mk (lead' ++ a ++ sep' ++ b ++ trail'))) := by
  refine ⟨fun s1 s2 h => ParseAndValidateInput_congr h, ⟨by decide, by decide⟩, ?_⟩
  intro lead a sep b trail lead' sep' trail' hsp hne hne'
  have hf : Fields (String.mk (lead ++ a ++ sep ++ b ++ trail)) =
      Fields (String.mk (lead' ++ a ++ sep' ++ b ++ trail')) := by
    rw [Fields_layout lead a sep b trail (fun c hc => hsp c (by simp [hc]))
        (fun c hc => hsp c (by simp [hc])) (fun c hc => hsp c (by simp [hc])) hne,
      Fields_layout lead' a sep' b trail' (fun c hc => hsp c (by simp [hc]))
        (fun c hc => hsp c (by simp [hc])) (fun c hc => hsp c (by simp [hc])) hne']
  exact ⟨hf, ParseAndValidateInput_congr hf⟩

/-- Witness for C21: `1 2` and the same tokens with a leading space, a tab and
a space between them, and a trailing space. -/
theorem whitespace_insensitive_witness :
    Fields "1 2" = Fields " 1\t 2 " ∧
      ParseAndValidateInput "1 2" = ParseAndValidateInput " 1\t 2 " :=
  ⟨by decide, whitespace_insensitive.1 "1 2" " 1\t 2 " (by decide)⟩
/-! ### Decimal text and `ValidateNumeric` -/

theorem isDigit_toNat {c : Char} (h : c.isDigit = true) : 48 ≤ c.toNat ∧ c.toNat ≤ 57 := by
  simp only [Char.isDigit, Bool.and_eq_true, decide_eq_true_eq] at h
  obtain ⟨h1, h2⟩ := h
  have h1' : (48 : UInt32).toNat ≤ c.val.toNat := h1
  have h2' : c.val.toNat ≤ (57 : UInt32).toNat := h2
  exact ⟨h1', h2'⟩

theorem isSpace_of_isDigit {c : Char} (h : c.isDigit = true) : isSpace c = false := by
  obtain ⟨h1, h2⟩ := isDigit_toNat h
  unfold isSpace
  simp only [Bool.or_eq_false_iff, Bool.and_eq_false_imp, decide_eq_false_iff_not,
    decide_eq_true_eq]
  omega

theorem digitChar_spec (k : Nat) (hk : k < 10) :
    (Nat.digitChar k).isDigit = true ∧ (Nat.digitChar k).toNat - 48 = k := by
  interval_cases k <;> exact ⟨by decide, by decide⟩

theorem toDigitsCore_value (fuel n : Nat) (ds : List Char) (h : n < fuel) :
    (Nat.toDigitsCore 10 fuel n ds).foldl (fun n c => n * 10 + (c.toNat - 48)) 0 =
      ds.foldl (fun n c => n * 10 + (c.toNat - 48)) n := by
  induction fuel generalizing n ds with
  | zero => exact absurd h (Nat.not_lt_zero n)
  | succ fuel ih =>
    unfold Nat.toDigitsCore
    simp only
    have hd := (digitChar_spec (n % 10) (Nat.mod_lt n (by decide))).2
    by_cases h0 : n / 10 = 0
    · simp only [h0, if_true, List.foldl_cons, Nat.zero_mul, Nat.zero_add, hd]
      have : n % 10 = n := by omega
      rw [this]
    · simp only [h0, if_false]
      rw [ih (n / 10) _ (by omega)]
      simp only [List.foldl_cons, hd]
      have : n / 10 * 10 + n % 10 = n := by omega
      rw [this]

theorem toDigitsCore_isDigit (fuel n : Nat) (ds : List Char)
    (hds : ∀ c ∈ ds, c.isDigit = true) :
    ∀ c ∈ Nat.toDigitsCore 10 fuel n ds, c.isDigit = true := by
  induction fuel generalizing n ds with
  | zero => exact hds
  | succ fuel ih =>
    unfold Nat.toDigitsCore
    simp only
    have hd := (digitChar_spec (n % 10) (Nat.mod_lt n (by decide))).1
    have hcons : ∀ c ∈ Nat.digitChar (n % 10) :: ds, c.isDigit = true := by
      intro c hc
      rcases List.mem_cons.1 hc with rfl | hc
      · exact hd
      · exact hds c hc
    by_cases h0 : n / 10 = 0
    · simp only [h0, if_true]
      exact hcons
    · simp only [h0, if_false]
      exact ih (n / 10) _ hcons

theorem toDigitsCore_ne_nil (fuel n : Nat) (ds : List Char) (h : 0 < fuel) :
    Nat.toDigitsCore 10 fuel n ds ≠ [] := by
  induction fuel generalizing n ds with
  | zero => exact absurd h (Nat.lt_irrefl 0)
  | succ fuel ih =>
    unfold Nat.toDigitsCore
    simp only
    by_cases h0 : n / 10 = 0
    · simp only [h0, if_true, ne_eq, reduceCtorEq, not_false_eq_true]
    · simp only [h0, if_false]
      cases fuel with
      | zero => simp [Nat.toDigitsCore]
      | succ f => exact ih (n / 10) _ (Nat.succ_pos f)

/-- The decimal text of a natural number: non-empty, digits only, and read
back by `digitsValue`. -/
theorem toDigits_spec (m : Nat) :
    Nat.toDigits 10 m ≠ [] ∧ (Nat.toDigits 10 m).all Char.isDigit = true ∧
      digitsValue (Nat.toDigits 10 m) = m := by
  refine ⟨toDigitsCore_ne_nil _ _ _ (Nat.succ_pos m), ?_, ?_⟩
  · rw [List.all_eq_true]
    exact toDigitsCore_isDigit _ _ _ (by simp)
  · unfold digitsValue Nat.toDigits
    rw [toDigitsCore_value (m + 1) m [] (Nat.lt_succ_self m)]
    rfl

/-- The decimal text of an integer, as `Int.repr` writes it, is a signed
decimal integer with that value and holds no space. -/
theorem Int_repr_spec (n : Int) :
    isSignedDecimal (Int.repr n) = true ∧ signedValue (Int.repr n) = n ∧
      (Int.repr n).data ≠ [] ∧ ∀ c ∈ (Int.repr n).data, isSpace c = false := by
  cases n with
  | ofNat m =>
    obtain ⟨hne, hall, hval⟩ := toDigits_spec m
    have hdata : (Int.repr (Int.ofNat m)).data = Nat.toDigits 10 m := rfl
    have hmem : ∀ c ∈ Nat.toDigits 10 m, c.isDigit = true := List.all_eq_true.1 hall
    unfold isSignedDecimal signedValue
    rw [hdata]
    cases hd : Nat.toDigits 10 m with
    | nil => exact absurd hd hne
    | cons c cs =>
      rw [hd] at hall hval hmem
      have hc : c.isDigit = true := hmem c (List.mem_cons_self c cs)
      have hplus : c ≠ '+' := by
        rintro rfl
        exact absurd hc (by decide)
      have hminus : c ≠ '-' := by
        rintro rfl
        exact absurd hc (by decide)
      simp only [hplus, hminus, or_self, if_false, hall, hval, true_and, ne_eq, reduceCtorEq,
        not_false_eq_true]
      exact ⟨rfl, fun d hd => isSpace_of_isDigit (hmem d hd)⟩
  | negSucc m =>
    obtain ⟨hne, hall, hval⟩ := toDigits_spec (m + 1)
    have hdata : (Int.repr (Int.negSucc m)).data = '-' :: Nat.toDigits 10 (m + 1) := rfl
    have hmem : ∀ c ∈ Nat.toDigits 10 (m + 1), c.isDigit = true := List.all_eq_true.1 hall
    unfold isSignedDecimal signedValue
    rw [hdata]
    simp only [or_true, if_true, hall, hval, Bool.and_true, Bool.not_eq_true',
      List.isEmpty_eq_false, ne_eq, reduceCtorEq, not_false_eq_true, true_and]
    refine ⟨hne, ?_, ?_⟩
    · rw [Int.negSucc_eq]
      push_cast
      ring
    · intro d hd
      rcases List.mem_cons.1 hd with rfl | hd
      · decide
      · exact isSpace_of_isDigit (hmem d hd)
theorem dropWhile_spaces_append (ws l : List Char) (hws : ∀ c ∈ ws, isSpace c = true) :
    (ws ++ l).dropWhile isSpace = l.dropWhile isSpace := by
  induction ws with
  | nil => rfl
  | cons c cs ih =>
    have hc : isSpace c = true := hws c (List.mem_cons_self c cs)
    simp only [List.cons_append, List.dropWhile, hc]
    exact ih (fun d hd => hws d (List.mem_cons_of_mem c hd))

theorem TrimSpace_surrounded (lead t trail : List Char)
    (hlead : ∀ c ∈ lead, isSpace c = true) (htrail : ∀ c ∈ trail, isSpace c = true)
    (ht : ∀ c ∈ t, isSpace c = false) (hne : t ≠ []) :
    TrimSpace (String.mk (lead ++ t ++ trail)) = String.mk t := by
  unfold TrimSpace
  have h1 : (lead ++ t ++ trail).dropWhile isSpace = t ++ trail := by
    rw [List.append_assoc, dropWhile_spaces_append lead _ hlead]
    cases t with
    | nil => exact absurd rfl hne
    | cons a as =>
      have ha : isSpace a = false := ht a (List.mem_cons_self a as)
      simp only [List.cons_append, List.dropWhile, ha]
      rfl
  have h2 : (t ++ trail).reverse.dropWhile isSpace = t.reverse := by
    rw [List.reverse_append,
      dropWhile_spaces_append trail.reverse _ (fun c hc => htrail c (List.mem_reverse.1 hc)),
      dropWhile_isSpace_eq_self t.reverse (fun c hc => ht c (List.mem_reverse.1 hc))]
  simp only [h1, h2, List.reverse_reverse]

/-- C27: `ValidateNumeric` parses signed integers and fails only with
`ErrInvalidFormat`.  For every integer `n` representable as a Go `int`,
`ValidateNumeric` applied to the decimal text of `n`, with any whitespace before
and after it, returns `n` with no error; and whenever `ValidateNumeric` returns
an error, as it does on the empty string, on a blank, on letters, on `1a` and
on `1.5`, the returned value is 0 and `errors.Is` identifies the error as
`ErrInvalidFormat` and as no other kind. -/
theorem ValidateNumeric_spec :
    (∀ (n : Int) (lead trail : List Char),
      -9223372036854775808 ≤ n → n ≤ 9223372036854775807 →
      (∀ c ∈ lead ++ trail, isSpace c = true) →
      ValidateNumeric (String.mk (lead ++ (Int.repr n).data ++ trail)) = (n, none)) ∧
    (∀ (s : String) (v : Int) (err : GoError), ValidateNumeric s = (v, some err) →
      v = 0 ∧ err.Is ErrInvalidFormat = true ∧ err.Is ErrIncompleteInput = false ∧
        err.Is ErrInvalidRange = false ∧
        (err = ErrInvalidFormat ∨ ∃ format arg, err = GoError.errorf format ErrInvalidFormat arg)) ∧
    (ValidateNumeric "" = (0, some ErrInvalidFormat) ∧
      ValidateNumeric " " = (0, some ErrInvalidFormat) ∧
      (ValidateNumeric "a").2 ≠ none ∧ (ValidateNumeric "1a").2 ≠ none ∧
      (ValidateNumeric "1.5").2 ≠ none ∧
      ValidateNumeric "12" = (12, none) ∧ ValidateNumeric "-1" = (-1, none) ∧
      ValidateNumeric " 2\t" = (2, none)) := by
  refine ⟨?_, ?_, ⟨by decide, by decide, by decide, by decide, by decide, by decide,
    by decide, by decide⟩⟩
  · intro n lead trail hlo hhi hsp
    obtain ⟨hsd, hval, hne, hnosp⟩ := Int_repr_spec n
    have htrim : TrimSpace (String.mk (lead ++ (Int.repr n).data ++ trail)) = Int.repr n :=
      TrimSpace_surrounded lead _ trail (fun c hc => hsp c (by simp [hc]))
        (fun c hc => hsp c (by simp [hc])) hnosp hne
    have hempty : Int.repr n ≠ "" := by
      intro h
      rw [h] at hne
      exact hne rfl
    have hA : Atoi (Int.repr n) = some n := (Atoi_eq_some _ n).2 ⟨hsd, hval, hlo, hhi⟩
    unfold ValidateNumeric
    simp only [htrim, hempty, if_false, hA]
  · intro s v err h
    unfold ValidateNumeric at h
    simp only at h
    split_ifs at h with hemp
    · simp only [Prod.mk.injEq, Option.some.injEq] at h
      obtain ⟨hv, herr⟩ := h
      subst herr
      exact ⟨hv.symm, by decide, by decide, by decide, Or.inl rfl⟩
    · cases hA : Atoi (TrimSpace s) with
      | none =>
        rw [hA] at h
        simp only [Prod.mk.injEq, Option.some.injEq] at h
        obtain ⟨hv, herr⟩ := h
        subst herr
        obtain ⟨h1, h2, h3, -⟩ := Is_wrapped_format "%w: %q is not a valid number"
          (Operand.str (TrimSpace s))
        exact ⟨hv.symm, h1, h2, h3, Or.inr ⟨_, _, rfl⟩⟩
      | some num =>
        rw [hA] at h
        simp at h

/-- Witness for C27: the decimal text of `-12` between a space and a tab. -/
theorem ValidateNumeric_spec_witness :
    ((-9223372036854775808 : Int) ≤ -12 ∧ (-12 : Int) ≤ 9223372036854775807 ∧
        ∀ c ∈ [' '] ++ ['\t'], isSpace c = true) ∧
      ValidateNumeric (String.mk ([' '] ++ (Int.repr (-12)).data ++ ['\t'])) = (-12, none) :=
  ⟨⟨by decide, by decide, by decide⟩,
    ValidateNumeric_spec.1 (-12) [' '] ['\t'] (by decide) (by decide) (by decide)⟩

/-! ### The validator in front of the engine -/

/-- C28: the validator in front of the engine.  For every input string `s` and
every game `g`, if `ParseAndValidateInput(s)` returns `(row, col)` with no
error, then `g.MakeMove(row, col)` indexes the board inside the grid and returns
without a panic, never returns `ErrInvalidRange`, returns `ErrCellOccupied`
exactly when the cell `(row, col)` of `g.Board` is not `Empty`, and succeeds
otherwise.  `ValidateRange(row, col)` returns nil exactly for the `(row, col)`
that pass the bounds check of `MakeMove`. -/
theorem validated_move_safe (s : String) (g : game.Game) (row col : Int)
    (h : ParseAndValidateInput s = (row, col, none)) :
    (game.toIndex row ≠ none ∧ game.toIndex col ≠ none ∧
        ∃ v, g.Board.GetCell row col = some v) ∧
      (∃ res, g.MakeMove row col = some res) ∧
      (∀ g', g.MakeMove row col ≠ some (g', some game.ErrInvalidRange)) ∧
      ((∃ g', g.MakeMove row col = some (g', some game.ErrCellOccupied)) ↔
        g.Board.GetCell row col ≠ some game.Empty) ∧
      ((∃ g', g.MakeMove row col = some (g', none)) ↔
        g.Board.GetCell row col = some game.Empty) ∧
      (∀ r c : Int, ValidateRange r c = none ↔
        ¬ (r < 0 ∨ r ≥ game.BOARD_SIZE ∨ c < 0 ∨ c ≥ game.BOARD_SIZE)) := by
  have hrange : 0 ≤ row ∧ row ≤ 2 ∧ 0 ≤ col ∧ col ≤ 2 := by
    rcases ParseAndValidateInput_cases s with ⟨-, h'⟩ | ⟨-, format, arg, h'⟩ |
      ⟨t0, t1, -, ⟨-, format, arg, h'⟩ | ⟨r, c, -, -, -, h'⟩ | ⟨r, c, -, -, hr, h'⟩⟩
    · rw [h] at h'
      simp at h'
    · rw [h] at h'
      simp at h'
    · rw [h] at h'
      simp at h'
    · rw [h] at h'
      simp at h'
    · rw [h] at h'
      simp only [Prod.mk.injEq, and_true] at h'
      obtain ⟨rfl, rfl⟩ := h'
      exact hr
  obtain ⟨i, hi⟩ := game.toIndex_inRange hrange.1 hrange.2.1
  obtain ⟨j, hj⟩ := game.toIndex_inRange hrange.2.2.1 hrange.2.2.2
  have hget : g.Board.GetCell row col = some (g.Board.get i j) := by
    simp only [game.Board.GetCell, hi, hj]
  have hmove := game.MakeMove_inRange g hi hj
  have hvr : ∀ r c : Int, ValidateRange r c = none ↔
      ¬ (r < 0 ∨ r ≥ game.BOARD_SIZE ∨ c < 0 ∨ c ≥ game.BOARD_SIZE) := by
    intro r c
    unfold ValidateRange
    simp only [MinCoordinate, MaxCoordinate, game.BOARD_SIZE, Nat.cast_ofNat]
    split_ifs with h1 h2
    · constructor
      · intro h0
        exact absurd h0 (by simp)
      · intro h0
        omega
    · constructor
      · intro h0
        exact absurd h0 (by simp)
      · intro h0
        omega
    · constructor
      · intro _
        omega
      · intro _
        rfl
  refine ⟨⟨by simp [hi], by simp [hj], _, hget⟩, game.MakeMove_total g row col, ?_, ?_, ?_, hvr⟩
  · intro g' hbad
    rw [hmove] at hbad
    split_ifs at hbad <;> simp only [Option.some.injEq, Prod.mk.injEq] at hbad
    all_goals first
      | exact absurd hbad.2 (by simp)
      | exact absurd hbad.2 (by decide)
  · rw [hget, hmove]
    by_cases hcell : g.Board.get i j = game.Empty
    · rw [if_pos hcell, hcell]
      constructor
      · rintro ⟨g', hg'⟩
        split_ifs at hg' <;> simp at hg'
      · intro hne
        exact absurd rfl hne
    · rw [if_neg hcell]
      constructor
      · intro _ heq
        simp only [Option.some.injEq] at heq
        exact hcell heq
      · intro _
        exact ⟨g, rfl⟩
  · rw [hget, hmove]
    by_cases hcell : g.Board.get i j = game.Empty
    · rw [if_pos hcell, hcell]
      constructor
      · intro _
        rfl
      · intro _
        split_ifs
        · exact ⟨_, rfl⟩
        · exact ⟨_, rfl⟩
        · exact ⟨_, rfl⟩
        · exact ⟨_, rfl⟩
    · rw [if_neg hcell]
      constructor
      · rintro ⟨g', hg'⟩
        simp at hg'
      · intro heq
        simp only [Option.some.injEq] at heq
        exact absurd heq hcell

/-- Witness for C28: the input `1 1` in front of the initial game. -/
theorem validated_move_safe_witness :
    ParseAndValidateInput "1 1" = (1, 1, none) ∧
      ((game.toIndex 1 ≠ none ∧ game.toIndex 1 ≠ none ∧
          ∃ v, game.NewGame.Board.GetCell 1 1 = some v) ∧
        (∃ res, game.NewGame.MakeMove 1 1 = some res) ∧
        (∀ g', game.NewGame.MakeMove 1 1 ≠ some (g', some game.ErrInvalidRange)) ∧
        ((∃ g', game.NewGame.MakeMove 1 1 = some (g', some game.ErrCellOccupied)) ↔
          game.NewGame.Board.GetCell 1 1 ≠ some game.Empty) ∧
        ((∃ g', game.NewGame.MakeMove 1 1 = some (g', none)) ↔
          game.NewGame.Board.GetCell 1 1 = some game.Empty) ∧
        (∀ r c : Int, ValidateRange r c = none ↔
          ¬ (r < 0 ∨ r ≥ game.BOARD_SIZE ∨ c < 0 ∨ c ≥ game.BOARD_SIZE))) :=
  ⟨by decide, validated_move_safe "1 1" game.NewGame 1 1 (by decide)⟩

end validation
